import Mathlib

/-!
Shallow embedding of the indexorm relational-mapping engine
(TypeScript sources: DataDriver, Repository, Queryable,
ConditionalQueryable, RelationAttachmentProvider, Shadow,
LocalStorageDriver) together with proofs settling the frozen claims
about its specification.

JavaScript runtime values are modelled by an inductive type Value;
the distinguished JavaScript value undefined is modelled as the
absence of a value, i.e. as none at type Option Value.  The raw
key-value medium (localStorage) maps string keys to stored cells;
since serialization of individual scalar values is out of scope of
the specification (a standard structured-data codec is assumed, and
JSON.parse after JSON.stringify is the identity on every value this
engine stores), a stored cell is modelled as Option Value where none
stands for the empty string that LocalStorageDriver.write produces
for a falsy value and some v for the JSON text of v.
-/

namespace IndexOrm

/-- A JavaScript runtime value as handled by the engine: null, a
boolean, a number (the engine only ever uses integral identifiers and
scalar numbers), a string, a plain object (an entity instance given
as a field list), or an array. -/
inductive Value where
  | vnull : Value
  | vbool : Bool → Value
  | vnum : Int → Value
  | vstr : String → Value
  | vobj : List (String × Value) → Value
  | varr : List Value → Value

/-- JavaScript truthiness of a defined value: null, false, 0 and the
empty string are falsy; every object and array (even empty) is
truthy. -/
def truthy : Value → Bool
  | .vnull => false
  | .vbool b => b
  | .vnum n => n != 0
  | .vstr s => s != ""
  | .vobj _ => true
  | .varr _ => true

/-- Truthiness of a possibly-undefined value: undefined is falsy. -/
def truthyOpt : Option Value → Bool
  | none => false
  | some v => truthy v

/-- JavaScript strict equality (as used by Array.prototype.includes,
which uses SameValueZero) restricted to the values the engine
compares: primitives compare by value, objects and arrays by
reference.  Two distinct object literals are never identical, so the
object and array cases are modelled as false (the engine only ever
compares identifiers, which are strings or numbers). -/
def valEqb : Value → Value → Bool
  | .vnull, .vnull => true
  | .vbool a, .vbool b => a == b
  | .vnum a, .vnum b => a == b
  | .vstr a, .vstr b => a == b
  | _, _ => false

/-- SameValueZero comparison between an array member and a
possibly-undefined needle: undefined is only equal to undefined, and
array cells never hold undefined here (JSON serialization turns
undefined array members into null). -/
def valEqbOpt : Value → Option Value → Bool
  | _, none => false
  | x, some y => valEqb x y

/-- JavaScript Array.prototype.includes on the modelled values. -/
def jsIncludes (xs : List Value) (needle : Option Value) : Bool :=
  xs.any (fun x => valEqbOpt x needle)

/-- String conversion of a primitive value as performed by a
JavaScript template literal.  Objects print in the standard
Object.prototype.toString form; an array nested inside another array
is approximated by the empty string (the engine never stringifies an
array, let alone a nested one, when building keys). -/
def jsPrimStr : Value → String
  | .vnull => "null"
  | .vbool b => if b then "true" else "false"
  | .vnum n => toString n
  | .vstr s => s
  | .vobj _ => "[object Object]"
  | .varr _ => ""

/-- Comma-joined rendering of array members: null and undefined
members print as nothing. -/
def jsArrItemsStr : List Value → String
  | [] => ""
  | [Value.vnull] => ""
  | [v] => jsPrimStr v
  | Value.vnull :: vs => "," ++ jsArrItemsStr vs
  | v :: vs => jsPrimStr v ++ "," ++ jsArrItemsStr vs

/-- String conversion of a value as performed by a JavaScript
template literal (Array.prototype.toString for arrays). -/
def jsValStr : Value → String
  | .varr xs => jsArrItemsStr xs
  | v => jsPrimStr v

/-- String conversion of a possibly-undefined value in a template
literal: undefined prints as the word undefined. -/
def jsStr : Option Value → String
  | none => "undefined"
  | some v => jsValStr v

/-- An entity instance in memory: a field list, later fields
shadowing earlier ones is avoided by construction (property write is
modelled by setProp below). -/
abbrev Entity := List (String × Value)

/-- Property read on an entity: none models a missing property (the
JavaScript value undefined). -/
def getProp (e : Entity) (k : String) : Option Value :=
  (e.find? (fun f => f.1 == k)).map (fun f => f.2)

/-- Property write on an entity. -/
def setProp (e : Entity) (k : String) (v : Value) : Entity :=
  (k, v) :: e.filter (fun f => !(f.1 == k))

/-! ### The raw key-value medium and the storage driver

LocalStorageDriver (and its twin SessionStorageDriver) prepend a
fixed namespace to every key, store a falsy value as the empty
string, and read a missing key or an empty string back as null. -/

/-- A stored cell: none is the empty string written for a falsy
value, some v the serialized form of the truthy value v. -/
abbrev Cell := Option Value

/-- The raw key-value medium underneath the driver. -/
abbrev Store := List (String × Cell)

/-- Raw read from the medium (localStorage.getItem): none when the
key is absent. -/
def rawRead (st : Store) (key : String) : Option Cell :=
  (st.find? (fun c => c.1 == key)).map (fun c => c.2)

/-- Raw write to the medium (localStorage.setItem overwrites the
binding for the key). -/
def rawWrite (st : Store) (key : String) (cell : Cell) : Store :=
  (key, cell) :: st.filter (fun c => !(c.1 == key))

/-- Raw removal from the medium (localStorage.removeItem). -/
def rawRemove (st : Store) (key : String) : Store :=
  st.filter (fun c => !(c.1 == key))

/-- The namespace LocalStorageDriver prepends to every key (the
source field keyPrefix). -/
def pfx : String := "indexorm::"

/-- LocalStorageDriver.write: a falsy value is stored as the empty
string, a truthy one as its JSON text. -/
def driverWrite (st : Store) (key : String) (v : Value) : Store :=
  rawWrite st (pfx ++ key) (if truthy v then some v else none)

/-- LocalStorageDriver.read: a missing key or an empty string reads
back as null, otherwise the stored value is parsed back. -/
def driverRead (st : Store) (key : String) : Value :=
  match rawRead st (pfx ++ key) with
  | none => .vnull
  | some none => .vnull
  | some (some v) => v

/-- LocalStorageDriver.remove. -/
def driverRemove (st : Store) (key : String) : Store :=
  rawRemove st (pfx ++ key)

/-! ### DataDriver key construction (DataDriver.ts) -/

/-- DataDriver.getTableIndexKey, with the literal pieces concatenated
exactly as in the source. -/
def tableIndexKey (tableName : String) : String :=
  ":" ++ ":index-of:" ++ (":" ++ tableName ++ "-identifiers:") ++ ":"

/-- DataDriver.getRelationIndexKey, with the literal pieces
concatenated exactly as in the source; the foreign-key value slot is
filled by template-literal stringification. -/
def relationIndexKey (destinationTableName sourceTableName
    destinationIdPropertyNameOnSourceTable : String)
    (destinationIdOnSourceTable : Option Value) : String :=
  ":" ++ ":index-of:" ++ (":" ++ sourceTableName ++ "-identifiers:")
    ++ ":which-has-one:" ++ (":" ++ destinationTableName ++ ":")
    ++ ":as:" ++ (":" ++ destinationIdPropertyNameOnSourceTable ++ ":")
    ++ ":with-identifier:" ++ (":" ++ jsStr destinationIdOnSourceTable ++ ":")
    ++ ":"

/-- The raw scalar data key string built by DataDriver.getDataKey
once its schema validation has passed. -/
def dataKeyString (tableName : String) (index : Option Value)
    (columnName : String) : String :=
  tableName ++ ":" ++ jsStr index ++ ":" ++ columnName ++ ";"

/-! ### Schema model and registry (Specification/) -/

/-- RelationalProperty: one relation descriptor of a schema.  The
related class is identified by its name, which is the registry key
(Repository and the attachment resolver look specifications up by
class). -/
structure RelProp where
  name : String
  className : String
  correspondingIdentifierProperty : String
  isCollection : Bool

/-- ClassSpecification: the schema of one entity type. -/
structure ClassSpec where
  className : String
  tableName : String
  identifierProperty : String
  nonRelationalProperties : List String
  relationalProperties : List RelProp

/-- The process-wide ClassSpecificationRegistry contents. -/
abbrev Registry := List ClassSpec

/-- ClassSpecificationRegistry.getSpecificationFor: lookup by class,
failing when the class is unregistered. -/
def getSpecificationFor (reg : Registry) (className : String) :
    Except String ClassSpec :=
  match reg.find? (fun s => s.className == className) with
  | none => .error ("No specification found for class " ++ className)
  | some s => .ok s

/-- ClassSpecificationRegistry.getSpecificationByTableName: lookup by
table name, failing when no schema maps to the table. -/
def getSpecificationByTableName (reg : Registry) (tableName : String) :
    Except String ClassSpec :=
  match reg.find? (fun s => s.tableName == tableName) with
  | none => .error ("No specification found for table " ++ tableName)
  | some s => .ok s

/-! ### DataDriver index and data-key operations -/

/-- DataDriver.getTableIndex: read the table index cell and fall back
to the empty list when it is falsy (the source reads the cell, then
returns index or else the empty array).  The cell, when present, was
always written by addTableIndex and is therefore an array. -/
def getTableIndexIds (st : Store) (tableName : String) : List Value :=
  match driverRead st (tableIndexKey tableName) with
  | .varr xs => xs
  | _ => []

/-- DataDriver.getRelationIndex: read the relation bucket; the source
returns the raw read, which is null (modelled none) when absent. -/
def getRelationIndexIds (st : Store) (destinationTableName sourceTableName
    destinationIdPropertyNameOnSourceTable : String)
    (destinationIdOnSourceTable : Option Value) : Option (List Value) :=
  match driverRead st (relationIndexKey destinationTableName sourceTableName
      destinationIdPropertyNameOnSourceTable destinationIdOnSourceTable) with
  | .varr xs => some xs
  | _ => none

/-- DataDriver.addTableIndex: write a singleton index when the cell
is falsy; otherwise fail on a duplicate identifier, else push.  A
pushed undefined identifier reaches storage as null through JSON
serialization. -/
def addTableIndex (st : Store) (tableName : String)
    (identifier : Option Value) : Store × Except String Unit :=
  match driverRead st (tableIndexKey tableName) with
  | .varr xs =>
      if jsIncludes xs identifier then
        (st, .error ("Index constraint violation: " ++ jsStr identifier ++
          " already exists in table " ++ tableName))
      else
        (driverWrite st (tableIndexKey tableName)
          (.varr (xs ++ [identifier.getD .vnull])), .ok ())
  | v =>
      if truthy v then
        (st, .error "TypeError: index.includes is not a function")
      else
        (driverWrite st (tableIndexKey tableName)
          (.varr [identifier.getD .vnull]), .ok ())

/-- DataDriver.addRelationIndex: create a singleton bucket when the
cell is falsy; re-adding an existing member is a no-op; else push. -/
def addRelationIndex (st : Store) (destinationTableName sourceTableName
    destinationIdPropertyNameOnSourceTable : String)
    (destinationIdOnSourceTable : Option Value)
    (identifier : Option Value) : Store × Except String Unit :=
  let key := relationIndexKey destinationTableName sourceTableName
    destinationIdPropertyNameOnSourceTable destinationIdOnSourceTable
  match driverRead st key with
  | .varr xs =>
      if jsIncludes xs identifier then
        (st, .ok ())
      else
        (driverWrite st key (.varr (xs ++ [identifier.getD .vnull])), .ok ())
  | v =>
      if truthy v then
        (st, .error "TypeError: relationIndex.includes is not a function")
      else
        (driverWrite st key (.varr [identifier.getD .vnull]), .ok ())

/-- DataDriver.removeTableIndex: no-op when the cell is falsy, else
filter the identifier out (strict inequality) and write back. -/
def removeTableIndex (st : Store) (tableName : String)
    (identifier : Option Value) : Store :=
  match driverRead st (tableIndexKey tableName) with
  | .varr xs =>
      driverWrite st (tableIndexKey tableName)
        (.varr (xs.filter (fun x => !(valEqbOpt x identifier))))
  | _ => st

/-- DataDriver.removeRelationIndex: no-op when the bucket is falsy,
else filter the identifier out and write back. -/
def removeRelationIndex (st : Store) (destinationTableName sourceTableName
    destinationIdPropertyNameOnSourceTable : String)
    (destinationIdOnSourceTable : Option Value)
    (identifier : Option Value) : Store :=
  let key := relationIndexKey destinationTableName sourceTableName
    destinationIdPropertyNameOnSourceTable destinationIdOnSourceTable
  match driverRead st key with
  | .varr xs =>
      driverWrite st key (.varr (xs.filter (fun x => !(valEqbOpt x identifier))))
  | _ => st

/-- DataDriver.removeRelationIndexRecord: delete the whole bucket. -/
def removeRelationIndexRecord (st : Store)
    (destinationTableName sourceTableName
    destinationIdPropertyNameOnSourceTable : String)
    (destinationIdOnSourceTable : Option Value) : Store :=
  driverRemove st (relationIndexKey destinationTableName sourceTableName
    destinationIdPropertyNameOnSourceTable destinationIdOnSourceTable)

/-- DataDriver.getDataKey: schema-validated scalar data key
construction; fails when the table has no registered schema or the
column is not a known scalar field of it. -/
def getDataKey (reg : Registry) (tableName : String) (index : Option Value)
    (columnName : String) : Except String String :=
  match getSpecificationByTableName reg tableName with
  | .error _ => .error ("No class specification found for table name: " ++ tableName)
  | .ok spec =>
      if columnName ∈ spec.nonRelationalProperties then
        .ok (dataKeyString tableName index columnName)
      else
        .error ("Column " ++ columnName ++ " not found in table " ++ tableName)

/-! ### Repository / write engine (Repository.ts)

The cascade recurses through repositories of related classes; the
TypeScript recursion is unbounded (nothing rejects cyclic data), so
the embedding carries a fuel parameter that only decreases where the
source recursion descends into a related repository.  Every quantity
the source computes before a possible throw is computed in the same
order here, and a failing step returns the store as mutated so far
(no partial-write rollback exists in the source). -/

/-- Property write where assigning a JavaScript undefined value is
modelled by removing the binding (reads of the property then yield
undefined, as in the source). -/
def setPropOpt (e : Entity) (k : String) : Option Value → Entity
  | none => e.filter (fun f => !(f.1 == k))
  | some v => setProp e k v

/-- View a value as an entity instance; property access on a
non-object yields undefined, modelled by the empty field list. -/
def asEntity : Value → Entity
  | .vobj fs => fs
  | _ => []

/-- The scalar-field write loop shared by Repository.create and
Repository.update: each field value is normalized (undefined becomes
an explicit null) and written under its schema-validated data key. -/
def writeScalars (reg : Registry) (tableName : String)
    (identifierValue : Option Value) (properties : List String)
    (inst : Entity) (st : Store) : Store × Except String Unit :=
  match properties with
  | [] => (st, .ok ())
  | p :: ps =>
    match getDataKey reg tableName identifierValue p with
    | .error e => (st, .error e)
    | .ok key =>
        let dataToStore := (getProp inst p).getD .vnull
        writeScalars reg tableName identifierValue ps inst
          (driverWrite st key dataToStore)

/-- The call kinds of the mutually recursive write-engine cascade:
create, update, createOrUpdate, the relational-property loop, and the
collection-member loop. -/
inductive RepoCall where
  | rcreate (spec : ClassSpec) (inst : Entity)
  | rupdate (spec : ClassSpec) (inst : Entity)
  | rupsert (spec : ClassSpec) (inst : Entity)
  | rrels (spec : ClassSpec) (rels : List RelProp) (inst : Entity)
      (identifier : Option Value)
  | rmembers (ownSpec childSpec : ClassSpec) (fkProp : String)
      (members : List Value) (inst : Entity)

/-- The result of a cascade call: the (possibly mutated) instance and
identifier, or the updated collection members. -/
inductive RepoOut where
  | rdone (inst : Entity) (idv : Option Value)
  | rlist (members : List Value)

/-- The write-engine cascade of Repository.ts in one structurally
fuel-recursive worker.  The TypeScript recursion through repositories
of related classes is unbounded (nothing rejects cyclic data), so
every descent consumes one unit of fuel; a failing step returns the
store as mutated so far (no partial-write rollback exists in the
source). -/
def repoRun (reg : Registry) : Nat → RepoCall → Store →
    Store × Except String RepoOut
  | 0, _, st => (st, .error "cascade recursion fuel exhausted")
  | fuel + 1, call, st =>
    match call with
    | .rupsert spec inst =>
      -- Repository.createOrUpdate: dispatch on table-index membership.
      let ids := getTableIndexIds st spec.tableName
      let idv := getProp inst spec.identifierProperty
      if jsIncludes ids idv then
        match repoRun reg fuel (.rupdate spec inst) st with
        | (st, .error e) => (st, .error e)
        | (st, .ok (.rdone inst _)) => (st, .ok (.rdone inst idv))
        | (st, .ok _) => (st, .error "unexpected cascade result")
      else
        repoRun reg fuel (.rcreate spec inst) st
    | .rcreate spec inst =>
      -- Repository.create: cascade, add to the table index (the
      -- duplicate gate), then write every scalar field of the
      -- (possibly cascade-mutated) instance.
      let idv := getProp inst spec.identifierProperty
      match repoRun reg fuel (.rrels spec spec.relationalProperties inst idv) st with
      | (st, .error e) => (st, .error e)
      | (st, .ok (.rdone inst _)) =>
        (match addTableIndex st spec.tableName idv with
         | (st, .error e) => (st, .error e)
         | (st, .ok _) =>
           match writeScalars reg spec.tableName idv
               spec.nonRelationalProperties inst st with
           | (st, .error e) => (st, .error e)
           | (st, .ok _) => (st, .ok (.rdone inst idv)))
      | (st, .ok _) => (st, .error "unexpected cascade result")
    | .rupdate spec inst =>
      -- Repository.update: the cascade and the scalar writes of
      -- create, with no table-index step.
      let idv := getProp inst spec.identifierProperty
      match repoRun reg fuel (.rrels spec spec.relationalProperties inst idv) st with
      | (st, .error e) => (st, .error e)
      | (st, .ok (.rdone inst _)) =>
        (match writeScalars reg spec.tableName idv
            spec.nonRelationalProperties inst st with
         | (st, .error e) => (st, .error e)
         | (st, .ok _) => (st, .ok (.rdone inst idv)))
      | (st, .ok _) => (st, .error "unexpected cascade result")
    | .rrels spec rels inst identifier =>
      -- Repository.handleRelationalProperties: for a singular
      -- relation, upsert a populated related object first (deriving
      -- and assigning the foreign-key value from it when the owning
      -- instance lacks one), then always add the relation-index
      -- entry; for a collection relation with a non-empty list,
      -- stamp each member with the owner identifier and upsert it.
      match rels with
      | [] => (st, .ok (.rdone inst none))
      | r :: rs =>
        if !r.isCollection then
          match getSpecificationFor reg r.className with
          | .error e => (st, .error e)
          | .ok childSpec =>
            let relatedData := getProp inst r.name
            let idOnSource := getProp inst r.correspondingIdentifierProperty
            if truthyOpt relatedData then
              let idOnSource2 :=
                if truthyOpt idOnSource then idOnSource
                else getProp (asEntity (relatedData.getD .vnull))
                  childSpec.identifierProperty
              let inst2 :=
                if truthyOpt idOnSource then inst
                else setPropOpt inst r.correspondingIdentifierProperty idOnSource2
              match repoRun reg fuel (.rupsert childSpec
                  (asEntity (relatedData.getD .vnull))) st with
              | (st, .error e) => (st, .error e)
              | (st, .ok (.rdone child _)) =>
                (let inst3 := setProp inst2 r.name (.vobj child)
                 match addRelationIndex st childSpec.tableName spec.tableName
                     r.correspondingIdentifierProperty idOnSource2 identifier with
                 | (st, .error e) => (st, .error e)
                 | (st, .ok _) =>
                   repoRun reg fuel (.rrels spec rs inst3 identifier) st)
              | (st, .ok _) => (st, .error "unexpected cascade result")
            else
              match addRelationIndex st childSpec.tableName spec.tableName
                  r.correspondingIdentifierProperty idOnSource identifier with
              | (st, .error e) => (st, .error e)
              | (st, .ok _) =>
                repoRun reg fuel (.rrels spec rs inst identifier) st
        else
          match getProp inst r.name with
          | none => repoRun reg fuel (.rrels spec rs inst identifier) st
          | some (.varr []) => repoRun reg fuel (.rrels spec rs inst identifier) st
          | some (.varr (m :: ms)) =>
            (match getSpecificationFor reg r.className with
             | .error e => (st, .error e)
             | .ok childSpec =>
               match repoRun reg fuel (.rmembers spec childSpec
                   r.correspondingIdentifierProperty (m :: ms) inst) st with
               | (st, .error e) => (st, .error e)
               | (st, .ok (.rlist members)) =>
                 (let inst2 := setProp inst r.name (.varr members)
                  repoRun reg fuel (.rrels spec rs inst2 identifier) st)
               | (st, .ok _) => (st, .error "unexpected cascade result"))
          | some v =>
            if truthy v then
              (st, .error "TypeError: relatedDataList is not iterable")
            else
              repoRun reg fuel (.rrels spec rs inst identifier) st
    | .rmembers ownSpec childSpec fkProp members inst =>
      -- The member loop of the collection branch: set the member
      -- foreign key to the owner identifier, then upsert the member
      -- through the related repository.
      match members with
      | [] => (st, .ok (.rlist []))
      | m :: ms =>
        let idOfSource := getProp inst ownSpec.identifierProperty
        let memberEnt := setPropOpt (asEntity m) fkProp idOfSource
        match repoRun reg fuel (.rupsert childSpec memberEnt) st with
        | (st, .error e) => (st, .error e)
        | (st, .ok (.rdone memberEnt _)) =>
          (match repoRun reg fuel (.rmembers ownSpec childSpec fkProp ms inst) st with
           | (st, .error e) => (st, .error e)
           | (st, .ok (.rlist rest)) => (st, .ok (.rlist (Value.vobj memberEnt :: rest)))
           | (st, .ok _) => (st, .error "unexpected cascade result"))
        | (st, .ok _) => (st, .error "unexpected cascade result")

/-- Repository.create (wrapper around the cascade worker). -/
def repoCreate (reg : Registry) (fuel : Nat) (spec : ClassSpec)
    (inst : Entity) (st : Store) :
    Store × Except String (Entity × Option Value) :=
  match repoRun reg fuel (.rcreate spec inst) st with
  | (st, .error e) => (st, .error e)
  | (st, .ok (.rdone inst idv)) => (st, .ok (inst, idv))
  | (st, .ok _) => (st, .error "unexpected cascade result")

/-- Repository.update (wrapper around the cascade worker). -/
def repoUpdate (reg : Registry) (fuel : Nat) (spec : ClassSpec)
    (inst : Entity) (st : Store) :
    Store × Except String (Entity × Option Value) :=
  match repoRun reg fuel (.rupdate spec inst) st with
  | (st, .error e) => (st, .error e)
  | (st, .ok (.rdone inst idv)) => (st, .ok (inst, idv))
  | (st, .ok _) => (st, .error "unexpected cascade result")

/-- Repository.createOrUpdate (wrapper around the cascade worker). -/
def repoCreateOrUpdate (reg : Registry) (fuel : Nat) (spec : ClassSpec)
    (inst : Entity) (st : Store) :
    Store × Except String (Entity × Option Value) :=
  match repoRun reg fuel (.rupsert spec inst) st with
  | (st, .error e) => (st, .error e)
  | (st, .ok (.rdone inst idv)) => (st, .ok (inst, idv))
  | (st, .ok _) => (st, .error "unexpected cascade result")

/-- The scalar-field removal loop of Repository.delete. -/
def deleteScalarKeys (reg : Registry) (tableName : String)
    (identifierValue : Option Value) (properties : List String)
    (st : Store) : Store × Except String Unit :=
  match properties with
  | [] => (st, .ok ())
  | p :: ps =>
    match getDataKey reg tableName identifierValue p with
    | .error e => (st, .error e)
    | .ok key =>
        deleteScalarKeys reg tableName identifierValue ps (driverRemove st key)

/-- The relation-index cleanup loop of Repository.delete: a singular
relation drops the entity identifier from the bucket keyed by the
foreign-key value carried on the in-memory instance; a collection
relation deletes the whole bucket keyed by the entity identifier. -/
def deleteRelLoop (reg : Registry) (spec : ClassSpec) :
    List RelProp → Entity → Option Value → Store →
    Store × Except String Unit
  | [], _, _, st => (st, .ok ())
  | r :: rs, inst, idv, st =>
    match getSpecificationFor reg r.className with
    | .error e => (st, .error e)
    | .ok childSpec =>
      if !r.isCollection then
        let identifierOfRelatedTable := getProp inst r.correspondingIdentifierProperty
        let st := removeRelationIndex st childSpec.tableName spec.tableName
          r.correspondingIdentifierProperty identifierOfRelatedTable idv
        deleteRelLoop reg spec rs inst idv st
      else
        let st := removeRelationIndexRecord st spec.tableName childSpec.tableName
          r.correspondingIdentifierProperty idv
        deleteRelLoop reg spec rs inst idv st

/-- Repository.delete: a no-op when the identifier is absent from the
table index; otherwise remove the identifier from the index, remove
every scalar-field key, then clean the relation indexes. -/
def repoDelete (reg : Registry) (spec : ClassSpec) (inst : Entity)
    (st : Store) : Store × Except String Unit :=
  let ids := getTableIndexIds st spec.tableName
  let idv := getProp inst spec.identifierProperty
  if !(jsIncludes ids idv) then (st, .ok ())
  else
    let st := removeTableIndex st spec.tableName idv
    match deleteScalarKeys reg spec.tableName idv spec.nonRelationalProperties st with
    | (st, .error e) => (st, .error e)
    | (st, .ok _) => deleteRelLoop reg spec spec.relationalProperties inst idv st

/-! ### Guarded views (Shadow.ts) and query results

A fetched result is a Proxy wrapping the scalar record: reads of a
still-guarded navigational property throw, writes remove the guard.
Result values form their own type because relation fields of a
result hold further guarded views. -/

/-- A value reachable from a fetched query result: a primitive
scalar, a guarded object view (field list plus the set of guarded
property names), or an array of results. -/
inductive SVal where
  | prim : Value → SVal
  | sobj : List (String × SVal) → List String → SVal
  | sarr : List SVal → SVal

/-- Property read through the Shadow proxy: reading a guarded name
throws; otherwise the underlying field (none models undefined). -/
def shadowGet : SVal → String → Except String (Option SVal)
  | .sobj fields guarded, k =>
      if k ∈ guarded then
        .error ("The property " ++ k ++
          " is not loaded yet. Lazy loading is not supported.")
      else
        .ok ((fields.find? (fun f => f.1 == k)).map (fun f => f.2))
  | _, _ => .ok none

/-- Property write through the Shadow proxy: a guarded name is
removed from the guard set, then the underlying field is set. -/
def shadowSet : SVal → String → SVal → SVal
  | .sobj fields guarded, k, v =>
      .sobj ((k, v) :: fields.filter (fun f => !(f.1 == k)))
        (guarded.filter (fun g => !(g == k)))
  | s, _, _ => s

/-- Shadow.for applied to a freshly loaded scalar record: every
navigational property name starts out guarded. -/
def baseShadow (data : Entity) (guardedNames : List String) : SVal :=
  .sobj (data.map (fun f => (f.1, SVal.prim f.2))) guardedNames

/-- An include map node: the ordered children of one level of the
include tree (the source PlainObject keyed by relation name). -/
inductive IncludeNode where
  | mk : List (String × IncludeNode) → IncludeNode

/-- The children of an include map node. -/
def IncludeNode.children : IncludeNode → List (String × IncludeNode)
  | .mk cs => cs

/-- The empty include map. -/
def emptyInclude : IncludeNode := .mk []

/-- The scalar-record building loop of Queryable._getById: each
schema-validated field is read and assigned onto the record only when
the value read back is truthy. -/
def readRecord (reg : Registry) (tableName : String) (idv : Option Value)
    (props : List String) (st : Store) (acc : Entity) : Except String Entity :=
  match props with
  | [] => .ok acc
  | p :: ps =>
    match getDataKey reg tableName idv p with
    | .error e => .error e
    | .ok key =>
      let v := driverRead st key
      readRecord reg tableName idv ps st
        (if truthy v then setProp acc p v else acc)

/-- The call kinds of the mutually recursive query engine: getById,
getByIds, the per-id load loop, include attachment, and the
include-resolution loop. -/
inductive QueryCall where
  | qbyId (spec : ClassSpec) (incMap : IncludeNode) (idv : Option Value)
      (skipIndexCheck : Bool)
  | qbyIds (spec : ClassSpec) (incMap : IncludeNode) (ids : List Value)
  | qeach (spec : ClassSpec) (incMap : IncludeNode) (ids : List Value)
  | qattach (spec : ClassSpec) (incMap : IncludeNode) (data : Entity)
  | qloop (spec : ClassSpec) (children : List (String × IncludeNode))
      (data : Entity) (acc : SVal)

/-- The result of a query call: one guarded view or a list of them. -/
inductive QueryOut where
  | qone (v : SVal)
  | qmany (vs : List SVal)

/-- The query engine of Queryable.ts and
RelationAttachmentProvider.ts in one structurally fuel-recursive
worker: the include-resolution recursion descends through related
repositories, so every descent consumes one unit of fuel.  Queries
never write to the store. -/
def queryRun (reg : Registry) : Nat → QueryCall → Store →
    Except String QueryOut
  | 0, _, _ => .error "query recursion fuel exhausted"
  | fuel + 1, call, st =>
    match call with
    | .qbyId spec incMap idv skipIndexCheck =>
      -- Queryable._getById: optionally check table-index membership
      -- (failing with not-found), build the scalar record, then
      -- resolve includes into a guarded view.
      if !skipIndexCheck &&
          !(jsIncludes (getTableIndexIds st spec.tableName) idv) then
        .error ("No data found for id: " ++ jsStr idv ++ ". " ++
          spec.tableName ++ " does not contain row with property " ++
          spec.identifierProperty ++ " having value " ++ jsStr idv)
      else
        match readRecord reg spec.tableName idv spec.nonRelationalProperties st [] with
        | .error e => .error e
        | .ok data => queryRun reg fuel (.qattach spec incMap data) st
    | .qbyIds spec incMap ids =>
      -- Queryable.getByIds: fail as a whole when any requested id is
      -- absent from the table index, otherwise load each in order.
      let indexes := getTableIndexIds st spec.tableName
      if ids.any (fun id => !(jsIncludes indexes (some id))) then
        .error ("One or more ids are missing in table: " ++ spec.tableName)
      else
        queryRun reg fuel (.qeach spec incMap ids) st
    | .qeach spec incMap ids =>
      -- The per-id load loop shared by getByIds, getAll and the
      -- conditional query engine: each id is loaded with the index
      -- check skipped.
      match ids with
      | [] => .ok (.qmany [])
      | id :: rest =>
        match queryRun reg fuel (.qbyId spec incMap (some id) true) st with
        | .error e => .error e
        | .ok (.qone v) =>
          (match queryRun reg fuel (.qeach spec incMap rest) st with
           | .error e => .error e
           | .ok (.qmany vs) => .ok (.qmany (v :: vs))
           | .ok _ => .error "unexpected query result")
        | .ok _ => .error "unexpected query result"
    | .qattach spec incMap data =>
      -- RelationAttachmentProvider.attachIncludesAndGet: wrap the
      -- scalar record in a guarded view, then resolve each include.
      queryRun reg fuel (.qloop spec incMap.children data
        (baseShadow data (spec.relationalProperties.map (fun r => r.name)))) st
    | .qloop spec children data acc =>
      -- The include-resolution loop of attachIncludesAndGet.  An
      -- include key with no matching relation fails; a collection
      -- include fetches the bucket keyed by the owner identifier; a
      -- singular include is skipped entirely when the record lacks
      -- the foreign-key field, attaches null when the value is
      -- falsy, and fetches the related row otherwise.  Every
      -- attachment is an assignment through the proxy, which
      -- removes that field guard.
      match children with
      | [] => .ok (.qone acc)
      | (includeKey, sub) :: rest =>
        match spec.relationalProperties.find? (fun r => r.name == includeKey) with
        | none =>
            .error ("Invalid include key: " ++ includeKey ++ "." ++
              "No such relational property found in class: " ++ spec.className)
        | some r =>
          match getSpecificationFor reg r.className with
          | .error e => .error e
          | .ok childSpec =>
            if r.isCollection then
              let relatedPropertyId := getProp data spec.identifierProperty
              let idsToFetch := getRelationIndexIds st spec.tableName
                childSpec.tableName r.correspondingIdentifierProperty relatedPropertyId
              match queryRun reg fuel (.qbyIds childSpec sub (idsToFetch.getD [])) st with
              | .error e => .error e
              | .ok (.qmany fetched) =>
                queryRun reg fuel (.qloop spec rest data
                  (shadowSet acc includeKey (.sarr fetched))) st
              | .ok _ => .error "unexpected query result"
            else
              if (data.find? (fun f => f.1 == r.correspondingIdentifierProperty)).isNone then
                queryRun reg fuel (.qloop spec rest data acc) st
              else
                let relatedPropertyId := getProp data r.correspondingIdentifierProperty
                if !truthyOpt relatedPropertyId then
                  queryRun reg fuel (.qloop spec rest data
                    (shadowSet acc includeKey (.prim .vnull))) st
                else
                  match queryRun reg fuel (.qbyId childSpec sub relatedPropertyId true) st with
                  | .error e => .error e
                  | .ok (.qone child) =>
                    queryRun reg fuel (.qloop spec rest data
                      (shadowSet acc includeKey child)) st
                  | .ok _ => .error "unexpected query result"

/-- Queryable._getById (wrapper around the query worker; getById is
the skipIndexCheck-false instance). -/
def qGetById (reg : Registry) (fuel : Nat) (spec : ClassSpec)
    (incMap : IncludeNode) (idv : Option Value) (skipIndexCheck : Bool)
    (st : Store) : Except String SVal :=
  match queryRun reg fuel (.qbyId spec incMap idv skipIndexCheck) st with
  | .error e => .error e
  | .ok (.qone v) => .ok v
  | .ok _ => .error "unexpected query result"

/-- Queryable.getByIds (wrapper around the query worker). -/
def qGetByIds (reg : Registry) (fuel : Nat) (spec : ClassSpec)
    (incMap : IncludeNode) (ids : List Value) (st : Store) :
    Except String (List SVal) :=
  match queryRun reg fuel (.qbyIds spec incMap ids) st with
  | .error e => .error e
  | .ok (.qmany vs) => .ok vs
  | .ok _ => .error "unexpected query result"

/-- The per-id load loop (wrapper around the query worker). -/
def qLoadEach (reg : Registry) (fuel : Nat) (spec : ClassSpec)
    (incMap : IncludeNode) (ids : List Value) (st : Store) :
    Except String (List SVal) :=
  match queryRun reg fuel (.qeach spec incMap ids) st with
  | .error e => .error e
  | .ok (.qmany vs) => .ok vs
  | .ok _ => .error "unexpected query result"

/-- RelationAttachmentProvider.attachIncludesAndGet (wrapper around
the query worker). -/
def attachIncludes (reg : Registry) (fuel : Nat) (spec : ClassSpec)
    (incMap : IncludeNode) (data : Entity) (st : Store) :
    Except String SVal :=
  match queryRun reg fuel (.qattach spec incMap data) st with
  | .error e => .error e
  | .ok (.qone v) => .ok v
  | .ok _ => .error "unexpected query result"

/-- Queryable.getAll: load every id in the table index. -/
def qGetAll (reg : Registry) (fuel : Nat) (spec : ClassSpec)
    (incMap : IncludeNode) (st : Store) : Except String (List SVal) :=
  qLoadEach reg fuel spec incMap (getTableIndexIds st spec.tableName) st

/-! ### Conditional query engine (Condition.ts, ConditionalQueryable.ts) -/

/-- A where-condition: the scalar field name and the predicate. -/
structure Cond where
  key : String
  test : Value → Bool

/-- ConditionalQueryable.where: reject relational properties, else
append the condition. -/
def condWhere (spec : ClassSpec) (conds : List Cond) (key : String)
    (test : Value → Bool) : Except String (List Cond) :=
  if spec.relationalProperties.any (fun r => r.name == key) then
    .error ("Where clause is not supported on relational properties yet. " ++
      "Cannot apply where clause on property: " ++ key)
  else
    .ok (conds ++ [⟨key, test⟩])

/-- ConditionalQueryable._checkConditionByIndex: read each
condition's field directly from storage for the candidate id and
test it; false as soon as one test fails. -/
def checkConditionByIndex (reg : Registry) (spec : ClassSpec)
    (conds : List Cond) (index : Value) (st : Store) : Except String Bool :=
  match conds with
  | [] => .ok true
  | c :: cs =>
    match getDataKey reg spec.tableName (some index) c.key with
    | .error e => .error e
    | .ok key =>
      if !(c.test (driverRead st key)) then .ok false
      else checkConditionByIndex reg spec cs index st

/-- JavaScript Array.prototype.filter applied to an async callback,
as written in ConditionalQueryable.getAll, single and count: the
callback returns a Promise object on every element, a Promise is
always truthy, and filter does not await it, so every element is
kept regardless of the awaited boolean. -/
def filterWithAsyncPredicate (xs : List α) : List α :=
  xs.filter (fun _ => true)

/-- ConditionalQueryable.getAll: filter the table index with the
async condition check (see filterWithAsyncPredicate), then load each
passing id. -/
def condGetAll (reg : Registry) (fuel : Nat) (spec : ClassSpec)
    (conds : List Cond) (incMap : IncludeNode) (st : Store) :
    Except String (List SVal) :=
  let indexes := getTableIndexIds st spec.tableName
  let passingIndexes := filterWithAsyncPredicate indexes
  qLoadEach reg fuel spec incMap passingIndexes st

/-- ConditionalQueryable.single: filter the table index with the
async condition check (see filterWithAsyncPredicate), fail when more
than one or zero ids pass, else load the single passing id. -/
def condSingle (reg : Registry) (fuel : Nat) (spec : ClassSpec)
    (conds : List Cond) (incMap : IncludeNode) (st : Store) :
    Except String SVal :=
  let indexes := getTableIndexIds st spec.tableName
  let passingIndexes := filterWithAsyncPredicate indexes
  if passingIndexes.length > 1 then
    .error "More than one record found while expecting exactly one"
  else
    match passingIndexes with
    | [] => .error "No record found while expecting exactly one"
    | id :: _ => qGetById reg fuel spec incMap (some id) true st

/-! ### One-level unfolding equations for the query worker

Each equation restates the body of queryRun at successor fuel for one
call kind; all hold by definitional unfolding and let proofs unfold
exactly one recursion level. -/

theorem queryRun_succ_qbyId (reg : Registry) (fuel : Nat) (spec : ClassSpec)
    (incMap : IncludeNode) (idv : Option Value) (skipIndexCheck : Bool)
    (st : Store) :
    queryRun reg (fuel + 1) (.qbyId spec incMap idv skipIndexCheck) st =
      (if !skipIndexCheck &&
          !(jsIncludes (getTableIndexIds st spec.tableName) idv) then
        .error ("No data found for id: " ++ jsStr idv ++ ". " ++
          spec.tableName ++ " does not contain row with property " ++
          spec.identifierProperty ++ " having value " ++ jsStr idv)
      else
        match readRecord reg spec.tableName idv spec.nonRelationalProperties st [] with
        | .error e => .error e
        | .ok data => queryRun reg fuel (.qattach spec incMap data) st) := rfl

theorem queryRun_succ_qbyIds (reg : Registry) (fuel : Nat) (spec : ClassSpec)
    (incMap : IncludeNode) (ids : List Value) (st : Store) :
    queryRun reg (fuel + 1) (.qbyIds spec incMap ids) st =
      (if ids.any (fun id =>
          !(jsIncludes (getTableIndexIds st spec.tableName) (some id))) then
        .error ("One or more ids are missing in table: " ++ spec.tableName)
      else
        queryRun reg fuel (.qeach spec incMap ids) st) := rfl

theorem queryRun_succ_qeach_nil (reg : Registry) (fuel : Nat) (spec : ClassSpec)
    (incMap : IncludeNode) (st : Store) :
    queryRun reg (fuel + 1) (.qeach spec incMap []) st = .ok (.qmany []) := rfl

theorem queryRun_succ_qeach_cons (reg : Registry) (fuel : Nat) (spec : ClassSpec)
    (incMap : IncludeNode) (id : Value) (rest : List Value) (st : Store) :
    queryRun reg (fuel + 1) (.qeach spec incMap (id :: rest)) st =
      (match queryRun reg fuel (.qbyId spec incMap (some id) true) st with
       | .error e => .error e
       | .ok (.qone v) =>
         (match queryRun reg fuel (.qeach spec incMap rest) st with
          | .error e => .error e
          | .ok (.qmany vs) => .ok (.qmany (v :: vs))
          | .ok _ => .error "unexpected query result")
       | .ok _ => .error "unexpected query result") := rfl

theorem queryRun_succ_qattach (reg : Registry) (fuel : Nat) (spec : ClassSpec)
    (incMap : IncludeNode) (data : Entity) (st : Store) :
    queryRun reg (fuel + 1) (.qattach spec incMap data) st =
      queryRun reg fuel (.qloop spec incMap.children data
        (baseShadow data (spec.relationalProperties.map (fun r => r.name)))) st := rfl

theorem queryRun_succ_qloop_nil (reg : Registry) (fuel : Nat) (spec : ClassSpec)
    (data : Entity) (acc : SVal) (st : Store) :
    queryRun reg (fuel + 1) (.qloop spec [] data acc) st = .ok (.qone acc) := rfl

theorem queryRun_succ_qloop_cons (reg : Registry) (fuel : Nat) (spec : ClassSpec)
    (includeKey : String) (sub : IncludeNode)
    (rest : List (String × IncludeNode)) (data : Entity) (acc : SVal)
    (st : Store) :
    queryRun reg (fuel + 1) (.qloop spec ((includeKey, sub) :: rest) data acc) st =
      (match spec.relationalProperties.find? (fun r => r.name == includeKey) with
       | none =>
           .error ("Invalid include key: " ++ includeKey ++ "." ++
             "No such relational property found in class: " ++ spec.className)
       | some r =>
         match getSpecificationFor reg r.className with
         | .error e => .error e
         | .ok childSpec =>
           if r.isCollection then
             match queryRun reg fuel (.qbyIds childSpec sub
                 ((getRelationIndexIds st spec.tableName childSpec.tableName
                   r.correspondingIdentifierProperty
                   (getProp data spec.identifierProperty)).getD [])) st with
             | .error e => .error e
             | .ok (.qmany fetched) =>
               queryRun reg fuel (.qloop spec rest data
                 (shadowSet acc includeKey (.sarr fetched))) st
             | .ok _ => .error "unexpected query result"
           else
             if (data.find? (fun f => f.1 == r.correspondingIdentifierProperty)).isNone then
               queryRun reg fuel (.qloop spec rest data acc) st
             else
               if !truthyOpt (getProp data r.correspondingIdentifierProperty) then
                 queryRun reg fuel (.qloop spec rest data
                   (shadowSet acc includeKey (.prim .vnull))) st
               else
                 match queryRun reg fuel (.qbyId childSpec sub
                     (getProp data r.correspondingIdentifierProperty) true) st with
                 | .error e => .error e
                 | .ok (.qone child) =>
                   queryRun reg fuel (.qloop spec rest data
                     (shadowSet acc includeKey child)) st
                 | .ok _ => .error "unexpected query result") := rfl

/-! ### Fuel monotonicity of the query worker

The fuel parameter is a modelling artifact of the unbounded source
recursion: once a query call completes without exhausting its fuel,
giving it more fuel does not change its result. -/

theorem queryRun_mono (reg : Registry) : ∀ (fuel : Nat) (call : QueryCall) (st : Store),
    queryRun reg fuel call st ≠ .error "query recursion fuel exhausted" →
    queryRun reg (fuel + 1) call st = queryRun reg fuel call st := by
  intro fuel
  induction fuel with
  | zero => intro call st h; exact absurd rfl h
  | succ fuel ih =>
    intro call st h
    cases call with
    | qbyId spec incMap idv skip =>
      rw [queryRun_succ_qbyId] at h ⊢
      rw [queryRun_succ_qbyId]
      by_cases hc : (!skip && !jsIncludes (getTableIndexIds st spec.tableName) idv) = true
      · simp only [hc, if_true]
      · simp only [hc, if_false] at h ⊢
        cases hrr : readRecord reg spec.tableName idv spec.nonRelationalProperties st [] with
        | error e => simp only [hrr]
        | ok data =>
          simp only [hrr] at h ⊢
          exact ih _ _ h
    | qbyIds spec incMap ids =>
      rw [queryRun_succ_qbyIds] at h ⊢
      rw [queryRun_succ_qbyIds]
      by_cases hc : (ids.any fun id =>
          !jsIncludes (getTableIndexIds st spec.tableName) (some id)) = true
      · simp only [hc, if_true]
      · simp only [hc, if_false] at h ⊢
        exact ih _ _ h
    | qeach spec incMap ids =>
      cases ids with
      | nil => rw [queryRun_succ_qeach_nil, queryRun_succ_qeach_nil]
      | cons id rest =>
        rw [queryRun_succ_qeach_cons] at h ⊢
        rw [queryRun_succ_qeach_cons]
        cases h1 : queryRun reg fuel (.qbyId spec incMap (some id) true) st with
        | error e =>
          simp only [h1] at h
          have hne : queryRun reg fuel (.qbyId spec incMap (some id) true) st ≠
              .error "query recursion fuel exhausted" := by rw [h1]; exact h
          have heq := ih _ _ hne
          simp only [heq, h1]
        | ok o =>
          have hne : queryRun reg fuel (.qbyId spec incMap (some id) true) st ≠
              .error "query recursion fuel exhausted" := by rw [h1]; simp
          have heq := ih _ _ hne
          simp only [heq, h1] at h ⊢
          cases o with
          | qone v =>
            cases h2 : queryRun reg fuel (.qeach spec incMap rest) st with
            | error e =>
              simp only [h2] at h
              have hne2 : queryRun reg fuel (.qeach spec incMap rest) st ≠
                  .error "query recursion fuel exhausted" := by rw [h2]; exact h
              have heq2 := ih _ _ hne2
              simp only [heq2, h2]
            | ok o2 =>
              have hne2 : queryRun reg fuel (.qeach spec incMap rest) st ≠
                  .error "query recursion fuel exhausted" := by rw [h2]; simp
              have heq2 := ih _ _ hne2
              simp only [heq2, h2]
          | qmany vs => rfl
    | qattach spec incMap data =>
      rw [queryRun_succ_qattach] at h ⊢
      rw [queryRun_succ_qattach]
      exact ih _ _ h
    | qloop spec children data acc =>
      cases children with
      | nil => rw [queryRun_succ_qloop_nil, queryRun_succ_qloop_nil]
      | cons c rest =>
        obtain ⟨includeKey, sub⟩ := c
        rw [queryRun_succ_qloop_cons] at h ⊢
        rw [queryRun_succ_qloop_cons]
        cases hfind : spec.relationalProperties.find? (fun r => r.name == includeKey) with
        | none => simp only [hfind]
        | some r =>
          simp only [hfind] at h ⊢
          cases hcs : getSpecificationFor reg r.className with
          | error e => simp only [hcs]
          | ok childSpec =>
            simp only [hcs] at h ⊢
            by_cases hcoll : r.isCollection = true
            · simp only [hcoll, if_true] at h ⊢
              cases h1 : queryRun reg fuel (.qbyIds childSpec sub
                  ((getRelationIndexIds st spec.tableName childSpec.tableName
                    r.correspondingIdentifierProperty
                    (getProp data spec.identifierProperty)).getD [])) st with
              | error e =>
                simp only [h1] at h
                have hne : queryRun reg fuel (.qbyIds childSpec sub
                    ((getRelationIndexIds st spec.tableName childSpec.tableName
                      r.correspondingIdentifierProperty
                      (getProp data spec.identifierProperty)).getD [])) st ≠
                    .error "query recursion fuel exhausted" := by rw [h1]; exact h
                have heq := ih _ _ hne
                simp only [heq, h1]
              | ok o =>
                have hne : queryRun reg fuel (.qbyIds childSpec sub
                    ((getRelationIndexIds st spec.tableName childSpec.tableName
                      r.correspondingIdentifierProperty
                      (getProp data spec.identifierProperty)).getD [])) st ≠
                    .error "query recursion fuel exhausted" := by rw [h1]; simp
                have heq := ih _ _ hne
                simp only [heq, h1] at h ⊢
                cases o with
                | qmany fetched =>
                  cases h2 : queryRun reg fuel (.qloop spec rest data
                      (shadowSet acc includeKey (.sarr fetched))) st with
                  | error e =>
                    simp only [h2] at h
                    have hne2 : queryRun reg fuel (.qloop spec rest data
                        (shadowSet acc includeKey (.sarr fetched))) st ≠
                        .error "query recursion fuel exhausted" := by rw [h2]; exact h
                    have heq2 := ih _ _ hne2
                    simp only [heq2, h2]
                  | ok o2 =>
                    have hne2 : queryRun reg fuel (.qloop spec rest data
                        (shadowSet acc includeKey (.sarr fetched))) st ≠
                        .error "query recursion fuel exhausted" := by rw [h2]; simp
                    have heq2 := ih _ _ hne2
                    simp only [heq2, h2]
                | qone v => rfl
            · simp only [Bool.not_eq_true] at hcoll
              simp only [hcoll, Bool.false_eq_true, if_false] at h ⊢
              by_cases hmiss : (data.find? (fun f =>
                  f.1 == r.correspondingIdentifierProperty)).isNone = true
              · simp only [hmiss, if_true] at h ⊢
                exact ih _ _ h
              · rw [Bool.not_eq_true] at hmiss
                simp only [hmiss, Bool.false_eq_true, if_false] at h ⊢
                by_cases hfk : (!truthyOpt (getProp data r.correspondingIdentifierProperty)) = true
                · simp only [hfk, if_true] at h ⊢
                  exact ih _ _ h
                · rw [Bool.not_eq_true] at hfk
                  simp only [hfk, Bool.false_eq_true, if_false] at h ⊢
                  cases h1 : queryRun reg fuel (.qbyId childSpec sub
                      (getProp data r.correspondingIdentifierProperty) true) st with
                  | error e =>
                    simp only [h1] at h
                    have hne : queryRun reg fuel (.qbyId childSpec sub
                        (getProp data r.correspondingIdentifierProperty) true) st ≠
                        .error "query recursion fuel exhausted" := by rw [h1]; exact h
                    have heq := ih _ _ hne
                    simp only [heq, h1]
                  | ok o =>
                    have hne : queryRun reg fuel (.qbyId childSpec sub
                        (getProp data r.correspondingIdentifierProperty) true) st ≠
                        .error "query recursion fuel exhausted" := by rw [h1]; simp
                    have heq := ih _ _ hne
                    simp only [heq, h1] at h ⊢
                    cases o with
                    | qone child =>
                      cases h2 : queryRun reg fuel (.qloop spec rest data
                          (shadowSet acc includeKey child)) st with
                      | error e =>
                        simp only [h2] at h
                        have hne2 : queryRun reg fuel (.qloop spec rest data
                            (shadowSet acc includeKey child)) st ≠
                            .error "query recursion fuel exhausted" := by rw [h2]; exact h
                        have heq2 := ih _ _ hne2
                        simp only [heq2, h2]
                      | ok o2 =>
                        have hne2 : queryRun reg fuel (.qloop spec rest data
                            (shadowSet acc includeKey child)) st ≠
                            .error "query recursion fuel exhausted" := by rw [h2]; simp
                        have heq2 := ih _ _ hne2
                        simp only [heq2, h2]
                    | qmany vs => rfl

/-- Fuel monotonicity, lifted to any larger fuel. -/
theorem queryRun_mono_le (reg : Registry) {fuel fuel' : Nat} (hle : fuel ≤ fuel')
    (call : QueryCall) (st : Store)
    (h : queryRun reg fuel call st ≠ .error "query recursion fuel exhausted") :
    queryRun reg fuel' call st = queryRun reg fuel call st := by
  induction fuel' with
  | zero =>
    have h0 : fuel = 0 := Nat.le_zero.mp hle
    rw [h0]
  | succ fuel' ih =>
    rcases Nat.lt_or_ge fuel (fuel' + 1) with hlt | hge
    · have hle' : fuel ≤ fuel' := Nat.lt_succ_iff.mp hlt
      rw [queryRun_mono reg fuel' call st (by rw [ih hle']; exact h)]
      exact ih hle'
    · have heq : fuel = fuel' + 1 := Nat.le_antisymm hle hge
      rw [heq]

/-! ### Infrastructure lemmas about the medium and the key space -/

theorem str_append_cancel_left {p a b : String} (h : p ++ a = p ++ b) : a = b := by
  apply String.ext
  have hd := congrArg String.data h
  rw [String.data_append, String.data_append] at hd
  exact List.append_cancel_left hd

theorem rawRead_rawWrite_self (st : Store) (k : String) (c : Cell) :
    rawRead (rawWrite st k c) k = some c := by
  simp [rawRead, rawWrite]

theorem find?_filter_ne {α : Type} (tl : List (String × α)) {k k' : String} (h : k' ≠ k) :
    List.find? (fun c => c.1 == k') (tl.filter (fun c => !(c.1 == k))) =
    List.find? (fun c => c.1 == k') tl := by
  induction tl with
  | nil => rfl
  | cons hd tl ih =>
    by_cases h1 : hd.1 = k
    · have hp : (!(hd.1 == k)) = false := by simp [h1]
      have hq : (hd.1 == k') = false := by
        simp only [beq_eq_false_iff_ne]
        rw [h1]; exact fun e => h (Eq.symm e)
      rw [List.filter_cons, hp, if_neg (by simp), ih,
        List.find?_cons_of_neg _ (by simp [hq]), ]
    · have hp : (!(hd.1 == k)) = true := by simp [h1]
      by_cases h2 : hd.1 = k'
      · rw [List.filter_cons, hp, if_pos rfl,
          List.find?_cons_of_pos _ (by simp [h2]),
          List.find?_cons_of_pos _ (by simp [h2])]
      · rw [List.filter_cons, hp, if_pos rfl,
          List.find?_cons_of_neg _ (by simp [h2]),
          List.find?_cons_of_neg _ (by simp [h2]), ih]

theorem rawRead_rawWrite_ne (st : Store) {k k' : String} (c : Cell)
    (h : k' ≠ k) : rawRead (rawWrite st k c) k' = rawRead st k' := by
  simp only [rawRead, rawWrite]
  rw [List.find?_cons_of_neg _ (by simp; exact fun e => h (Eq.symm e)),
    find?_filter_ne st h]

theorem rawRead_rawRemove_ne (st : Store) {k k' : String}
    (h : k' ≠ k) : rawRead (rawRemove st k) k' = rawRead st k' := by
  simp only [rawRead, rawRemove]
  rw [find?_filter_ne st h]

theorem driverRead_write_self (st : Store) (k : String) (v : Value) :
    driverRead (driverWrite st k v) k = if truthy v then v else .vnull := by
  simp only [driverRead, driverWrite, rawRead_rawWrite_self]
  by_cases h : truthy v <;> simp [h]

theorem driverRead_write_ne (st : Store) {k k' : String} (v : Value)
    (h : k' ≠ k) : driverRead (driverWrite st k v) k' = driverRead st k' := by
  simp only [driverRead, driverWrite]
  rw [rawRead_rawWrite_ne]
  exact fun e => h (str_append_cancel_left e)

theorem driverRead_remove_ne (st : Store) {k k' : String}
    (h : k' ≠ k) : driverRead (driverRemove st k) k' = driverRead st k' := by
  simp only [driverRead, driverRemove]
  rw [rawRead_rawRemove_ne]
  exact fun e => h (str_append_cancel_left e)

/-- Strings with different final characters are different. -/
theorem ne_of_lastChar {a b : String} {c₁ c₂ : Char}
    (ha : a.data.getLast? = some c₁) (hb : b.data.getLast? = some c₂)
    (hc : c₁ ≠ c₂) : a ≠ b := by
  intro h
  rw [h] at ha
  rw [ha] at hb
  exact hc (by injection hb)

theorem dataKeyString_lastChar (t : String) (idv : Option Value) (c : String) :
    (dataKeyString t idv c).data.getLast? = some ';' := by
  unfold dataKeyString
  rw [String.data_append]
  show (_ ++ [';']).getLast? = some ';'
  exact List.getLast?_concat _

theorem tableIndexKey_lastChar (t : String) :
    (tableIndexKey t).data.getLast? = some ':' := by
  unfold tableIndexKey
  rw [String.data_append]
  show (_ ++ [':']).getLast? = some ':'
  exact List.getLast?_concat _

theorem relationIndexKey_lastChar (dt srcT fk : String) (v : Option Value) :
    (relationIndexKey dt srcT fk v).data.getLast? = some ':' := by
  unfold relationIndexKey
  rw [String.data_append]
  show (_ ++ [':']).getLast? = some ':'
  exact List.getLast?_concat _

/-- A scalar data key never collides with a table index key: the
former ends in a semicolon, the latter in a colon. -/
theorem dataKey_ne_tableIndexKey (t : String) (idv : Option Value)
    (c t' : String) : dataKeyString t idv c ≠ tableIndexKey t' :=
  ne_of_lastChar (dataKeyString_lastChar t idv c)
    (tableIndexKey_lastChar t') (by decide)

/-- A scalar data key never collides with a relation index key. -/
theorem dataKey_ne_relationIndexKey (t : String) (idv : Option Value)
    (c dt srcT fk : String) (v : Option Value) :
    dataKeyString t idv c ≠ relationIndexKey dt srcT fk v :=
  ne_of_lastChar (dataKeyString_lastChar t idv c)
    (relationIndexKey_lastChar dt srcT fk v) (by decide)

/-- Data keys of two fields of the same row differ exactly when the
field names differ. -/
theorem dataKeyString_field_inj {t : String} {idv : Option Value}
    {c₁ c₂ : String} (h : dataKeyString t idv c₁ = dataKeyString t idv c₂) :
    c₁ = c₂ := by
  have hd := congrArg String.data h
  simp only [dataKeyString, String.data_append] at hd
  exact String.ext (List.append_cancel_left (List.append_cancel_right hd))

/-! ### Claim C6: the literal storage key patterns -/

/-- C6: for every table name, foreign-key field name and foreign-key
value, the storage keys produced are exactly the literal pattern
containing index-of and the table name followed by identifiers for
the table identifier index, the literal which-has-one pattern
embedding source table, destination table, foreign-key field and
foreign-key value for the relation index, and the colon-semicolon
pattern embedding table, identifier and field for scalar data. -/
theorem c6_storage_key_patterns (destT srcT fkField t f : String)
    (fkv idv : Option Value) (reg : Registry) (s : String)
    (h : getDataKey reg t idv f = .ok s) :
    tableIndexKey t = "::index-of::" ++ t ++ "-identifiers::" ∧
    relationIndexKey destT srcT fkField fkv =
      "::index-of::" ++ srcT ++ "-identifiers::which-has-one::" ++ destT ++
      "::as::" ++ fkField ++ "::with-identifier::" ++ jsStr fkv ++ "::" ∧
    s = t ++ ":" ++ jsStr idv ++ ":" ++ f ++ ";" := by
  refine ⟨?_, ?_, ?_⟩
  · apply String.ext
    simp [tableIndexKey, String.data_append]
  · apply String.ext
    simp [relationIndexKey, String.data_append]
  · unfold getDataKey at h
    cases hspec : getSpecificationByTableName reg t with
    | error e => rw [hspec] at h; exact absurd h (by simp)
    | ok spec =>
      rw [hspec] at h
      by_cases hc : f ∈ spec.nonRelationalProperties
      · simp only [hc, if_pos] at h
        have := Except.ok.inj h
        exact this.symm
      · simp only [hc, if_neg] at h
        exact absurd h (by simp)

/-- Witness for C6 at a concrete registry, table, field and value. -/
theorem c6_storage_key_patterns_witness :
    tableIndexKey "person" = "::index-of::" ++ "person" ++ "-identifiers::" ∧
    relationIndexKey "address" "person" "addressId" (some (.vnum 7)) =
      "::index-of::" ++ "person" ++ "-identifiers::which-has-one::" ++ "address" ++
      "::as::" ++ "addressId" ++ "::with-identifier::" ++ jsStr (some (.vnum 7)) ++ "::" ∧
    "person:1:id;" = "person" ++ ":" ++ jsStr (some (.vnum 1)) ++ ":" ++ "id" ++ ";" :=
  c6_storage_key_patterns "address" "person" "addressId" "person" "id"
    (some (.vnum 7)) (some (.vnum 1))
    [⟨"Person", "person", "id", ["id"], []⟩] "person:1:id;" (by rfl)

/-! ### Property lemmas for entities, scalar writes and record reads -/

theorem getProp_setProp_self (e : Entity) (k : String) (v : Value) :
    getProp (setProp e k v) k = some v := by
  simp [getProp, setProp]

theorem getProp_setProp_ne (e : Entity) {k k' : String} (v : Value)
    (h : k' ≠ k) : getProp (setProp e k v) k' = getProp e k' := by
  simp only [getProp, setProp]
  rw [List.find?_cons_of_neg _ (by simp; exact fun e => h (Eq.symm e)),
    find?_filter_ne e h]

/-- One-level unfolding: the cascade on an empty relation list. -/
theorem repoRun_succ_rrels_nil (reg : Registry) (fuel : Nat) (spec : ClassSpec)
    (inst : Entity) (idv : Option Value) (st : Store) :
    repoRun reg (fuel + 1) (.rrels spec [] inst idv) st =
      (st, .ok (.rdone inst none)) := rfl

/-- One-level unfolding of Repository.create. -/
theorem repoRun_succ_rcreate (reg : Registry) (fuel : Nat) (spec : ClassSpec)
    (inst : Entity) (st : Store) :
    repoRun reg (fuel + 1) (.rcreate spec inst) st =
      (match repoRun reg fuel
          (.rrels spec spec.relationalProperties inst
            (getProp inst spec.identifierProperty)) st with
       | (st1, .error e) => (st1, .error e)
       | (st1, .ok (.rdone inst2 _)) =>
         (match addTableIndex st1 spec.tableName
             (getProp inst spec.identifierProperty) with
          | (st2, .error e) => (st2, .error e)
          | (st2, .ok _) =>
            match writeScalars reg spec.tableName
                (getProp inst spec.identifierProperty)
                spec.nonRelationalProperties inst2 st2 with
            | (st3, .error e) => (st3, .error e)
            | (st3, .ok _) =>
              (st3, .ok (.rdone inst2 (getProp inst spec.identifierProperty))))
       | (st1, .ok _) => (st1, .error "unexpected cascade result")) := rfl

/-- One-level unfolding of Repository.update. -/
theorem repoRun_succ_rupdate (reg : Registry) (fuel : Nat) (spec : ClassSpec)
    (inst : Entity) (st : Store) :
    repoRun reg (fuel + 1) (.rupdate spec inst) st =
      (match repoRun reg fuel
          (.rrels spec spec.relationalProperties inst
            (getProp inst spec.identifierProperty)) st with
       | (st1, .error e) => (st1, .error e)
       | (st1, .ok (.rdone inst2 _)) =>
         (match writeScalars reg spec.tableName
             (getProp inst spec.identifierProperty)
             spec.nonRelationalProperties inst2 st1 with
          | (st3, .error e) => (st3, .error e)
          | (st3, .ok _) =>
            (st3, .ok (.rdone inst2 (getProp inst spec.identifierProperty))))
       | (st1, .ok _) => (st1, .error "unexpected cascade result")) := rfl

/-- A successful addTableIndex leaves the identifier in the table
index (for an identifier value that compares equal to itself, i.e. a
string or number). -/
theorem addTableIndex_ok_mem (st : Store) (t : String) (idv : Option Value)
    (st' : Store) (h : addTableIndex st t idv = (st', .ok ()))
    (hrefl : valEqbOpt (idv.getD .vnull) idv = true) :
    jsIncludes (getTableIndexIds st' t) idv = true := by
  unfold addTableIndex at h
  cases hv : driverRead st (tableIndexKey t) with
  | varr xs =>
    simp only [hv] at h
    by_cases hmem : jsIncludes xs idv = true
    · simp only [hmem, if_true] at h
      exact absurd (congrArg Prod.snd h) (by simp)
    · simp only [hmem, if_false] at h
      have hst : st' = driverWrite st (tableIndexKey t)
          (.varr (xs ++ [idv.getD .vnull])) := (congrArg Prod.fst h).symm
      subst hst
      unfold getTableIndexIds
      rw [driverRead_write_self]
      simp only [truthy, if_true]
      simp [jsIncludes, hrefl]
  | vnull =>
    simp only [hv, truthy, Bool.false_eq_true, if_false] at h
    have hst : st' = driverWrite st (tableIndexKey t)
        (.varr [idv.getD .vnull]) := (congrArg Prod.fst h).symm
    subst hst
    unfold getTableIndexIds
    rw [driverRead_write_self]
    simp only [truthy, if_true]
    simp [jsIncludes, hrefl]
  | vbool b =>
    cases b with
    | true =>
      simp only [hv, truthy, if_true] at h
      exact absurd (congrArg Prod.snd h) (by simp)
    | false =>
      simp only [hv, truthy, Bool.false_eq_true, if_false] at h
      have hst : st' = driverWrite st (tableIndexKey t)
          (.varr [idv.getD .vnull]) := (congrArg Prod.fst h).symm
      subst hst
      unfold getTableIndexIds
      rw [driverRead_write_self]
      simp only [truthy, if_true]
      simp [jsIncludes, hrefl]
  | vnum n =>
    by_cases hn : (n != 0) = true
    · simp only [hv, truthy, hn, if_true] at h
      exact absurd (congrArg Prod.snd h) (by simp)
    · rw [Bool.not_eq_true] at hn
      simp only [hv, truthy, hn, Bool.false_eq_true, if_false] at h
      have hst : st' = driverWrite st (tableIndexKey t)
          (.varr [idv.getD .vnull]) := (congrArg Prod.fst h).symm
      subst hst
      unfold getTableIndexIds
      rw [driverRead_write_self]
      simp only [truthy, if_true]
      simp [jsIncludes, hrefl]
  | vstr sv =>
    by_cases hn : (sv != "") = true
    · simp only [hv, truthy, hn, if_true] at h
      exact absurd (congrArg Prod.snd h) (by simp)
    · rw [Bool.not_eq_true] at hn
      simp only [hv, truthy, hn, Bool.false_eq_true, if_false] at h
      have hst : st' = driverWrite st (tableIndexKey t)
          (.varr [idv.getD .vnull]) := (congrArg Prod.fst h).symm
      subst hst
      unfold getTableIndexIds
      rw [driverRead_write_self]
      simp only [truthy, if_true]
      simp [jsIncludes, hrefl]
  | vobj fs =>
    simp only [hv, truthy, if_true] at h
    exact absurd (congrArg Prod.snd h) (by simp)

/-- getDataKey succeeds exactly with the literal data key string. -/
theorem getDataKey_ok_eq {reg : Registry} {t : String} {idv : Option Value}
    {q key : String} (hdk : getDataKey reg t idv q = .ok key) :
    key = dataKeyString t idv q := by
  unfold getDataKey at hdk
  cases hs : getSpecificationByTableName reg t with
  | error e =>
    simp only [hs] at hdk
    exact absurd hdk (by simp)
  | ok sp =>
    simp only [hs] at hdk
    by_cases hc : q ∈ sp.nonRelationalProperties
    · simp only [hc, if_true] at hdk
      exact (Except.ok.inj hdk).symm
    · simp only [hc, if_false] at hdk
      exact absurd hdk (by simp)

/-- A successful scalar-write loop. -/
theorem writeScalars_ok (reg : Registry) (t : String) (idv : Option Value) :
    ∀ (props : List String) (inst : Entity) (st : Store),
    (∀ p ∈ props, getDataKey reg t idv p = .ok (dataKeyString t idv p)) →
    (writeScalars reg t idv props inst st).2 = .ok () := by
  intro props
  induction props with
  | nil => intro inst st _; rfl
  | cons q qs ih =>
    intro inst st hall
    unfold writeScalars
    simp only [hall q (by simp)]
    exact ih inst _ (fun p hp => hall p (by simp [hp]))

/-- The scalar-write loop only touches the data keys of its field
list: any other key reads back unchanged. -/
theorem writeScalars_frame (reg : Registry) (t : String) (idv : Option Value) :
    ∀ (props : List String) (inst : Entity) (st : Store) (k : String),
    (∀ p ∈ props, dataKeyString t idv p ≠ k) →
    driverRead (writeScalars reg t idv props inst st).1 k = driverRead st k := by
  intro props
  induction props with
  | nil => intro inst st k _; rfl
  | cons q qs ih =>
    intro inst st k hk
    unfold writeScalars
    cases hdk : getDataKey reg t idv q with
    | error e => rfl
    | ok key =>
      simp only [hdk]
      have hkey := getDataKey_ok_eq hdk
      subst hkey
      rw [ih inst _ k (fun p hp => hk p (by simp [hp]))]
      exact driverRead_write_ne st _ (fun he => hk q (by simp) he.symm)

/-- Reading back a field after the scalar-write loop: the cell holds
the normalized value of that field on the written instance. -/
theorem writeScalars_read (reg : Registry) (t : String) (idv : Option Value) :
    ∀ (props : List String) (inst : Entity) (st : Store) (p : String),
    props.Nodup →
    (∀ q ∈ props, getDataKey reg t idv q = .ok (dataKeyString t idv q)) →
    p ∈ props →
    driverRead (writeScalars reg t idv props inst st).1 (dataKeyString t idv p) =
      (if truthy ((getProp inst p).getD .vnull)
        then (getProp inst p).getD .vnull else .vnull) := by
  intro props
  induction props with
  | nil => intro inst st p _ _ hp; exact absurd hp (by simp)
  | cons q qs ih =>
    intro inst st p hnd hall hp
    unfold writeScalars
    simp only [hall q (by simp)]
    rcases List.mem_cons.mp hp with hpq | hpqs
    · subst hpq
      have hnotin : p ∉ qs := (List.nodup_cons.mp hnd).1
      rw [writeScalars_frame reg t idv qs inst _ _ (fun r hr he =>
        hnotin (by rw [dataKeyString_field_inj he] at hr; exact hr))]
      rw [driverRead_write_self]
    · exact ih inst _ p (List.nodup_cons.mp hnd).2
        (fun r hr => hall r (by simp [hr])) hpqs

/-- The record-building loop of getById succeeds when every field
passes key validation, and a field of the result holds the value read
from storage when that value is truthy, the accumulator value
otherwise. -/
theorem readRecord_spec (reg : Registry) (t : String) (idv : Option Value)
    (st : Store) : ∀ (props : List String) (acc : Entity),
    (∀ p ∈ props, getDataKey reg t idv p = .ok (dataKeyString t idv p)) →
    ∃ res, readRecord reg t idv props st acc = .ok res ∧
      (∀ p, p ∉ props → getProp res p = getProp acc p) ∧
      (props.Nodup → ∀ p, p ∈ props →
        getProp res p = (if truthy (driverRead st (dataKeyString t idv p))
          then some (driverRead st (dataKeyString t idv p)) else getProp acc p)) := by
  intro props
  induction props with
  | nil =>
    intro acc _
    exact ⟨acc, rfl, fun p _ => rfl, fun _ p hp => absurd hp (by simp)⟩
  | cons q qs ih =>
    intro acc hall
    have hq := hall q (by simp)
    obtain ⟨res, hres, hframe, hchar⟩ := ih
      (if truthy (driverRead st (dataKeyString t idv q))
        then setProp acc q (driverRead st (dataKeyString t idv q)) else acc)
      (fun p hp => hall p (by simp [hp]))
    refine ⟨res, ?_, ?_, ?_⟩
    · unfold readRecord
      simp only [hq]
      by_cases ht : truthy (driverRead st (dataKeyString t idv q)) = true
      · simp only [ht, if_true] at hres ⊢; exact hres
      · rw [Bool.not_eq_true] at ht
        simp only [ht, Bool.false_eq_true, if_false] at hres ⊢; exact hres
    · intro p hp
      have hpq : p ≠ q := fun he => hp (by simp [he])
      have hpqs : p ∉ qs := fun hm => hp (by simp [hm])
      rw [hframe p hpqs]
      by_cases ht : truthy (driverRead st (dataKeyString t idv q)) = true
      · simp only [ht, if_true]
        exact getProp_setProp_ne acc _ hpq
      · rw [Bool.not_eq_true] at ht
        simp only [ht, Bool.false_eq_true, if_false]
    · intro hnd p hp
      rcases List.mem_cons.mp hp with hpq | hpqs
      · subst hpq
        have hnotin : p ∉ qs := (List.nodup_cons.mp hnd).1
        rw [hframe p hnotin]
        by_cases ht : truthy (driverRead st (dataKeyString t idv p)) = true
        · simp only [ht, if_true]
          exact getProp_setProp_self acc p _
        · rw [Bool.not_eq_true] at ht
          simp only [ht, Bool.false_eq_true, if_false]
      · have hpq : p ≠ q := fun he => (List.nodup_cons.mp hnd).1 (he ▸ hpqs)
        rw [hchar (List.nodup_cons.mp hnd).2 p hpqs]
        by_cases ht : truthy (driverRead st (dataKeyString t idv p)) = true
        · simp only [ht, if_true]
        · rw [Bool.not_eq_true] at ht
          simp only [ht, Bool.false_eq_true, if_false]
          by_cases ht2 : truthy (driverRead st (dataKeyString t idv q)) = true
          · simp only [ht2, if_true]
            exact getProp_setProp_ne acc _ hpq
          · rw [Bool.not_eq_true] at ht2
            simp only [ht2, Bool.false_eq_true, if_false]

/-- Attaching an empty include map wraps the record in a guarded view
and resolves nothing. -/
theorem attachIncludes_empty (reg : Registry) (fuel : Nat) (spec : ClassSpec)
    (data : Entity) (st : Store) :
    attachIncludes reg (fuel + 2) spec emptyInclude data st =
      .ok (baseShadow data (spec.relationalProperties.map (fun r => r.name))) := rfl

/-- Reading a scalar field through an unguarded view yields the
underlying record field. -/
theorem shadowGet_baseShadow (data : Entity) (guarded : List String)
    (p : String) (hng : p ∉ guarded) :
    shadowGet (baseShadow data guarded) p = .ok ((getProp data p).map SVal.prim) := by
  simp only [baseShadow, shadowGet]
  rw [if_neg hng]
  congr 1
  unfold getProp
  induction data with
  | nil => rfl
  | cons f fs ih =>
    by_cases hf : (f.1 == p) = true
    · simp [List.find?, hf]
    · simp only [List.map_cons, List.find?, hf]
      exact ih

/-! ### Claims C1 and C3: the conditional query engine evaluates its
conditions through a JavaScript filter with an async callback

ConditionalQueryable.getAll and single filter the table index with
an async callback; the callback returns a Promise, which is always
truthy, so the computed passing set is the whole table index and the
accumulated where-conditions are ignored (first and any, by
contrast, await each check in a loop).  The scenario below builds a
two-row table through Repository.create and queries it with a
predicate that only row 1 passes. -/

/-- A scalar-only Person schema: identifier id, scalar field age. -/
def specPersonScalar : ClassSpec :=
  ⟨"Person", "person", "id", ["id", "age"], []⟩

/-- A registry holding only the scalar Person schema. -/
def regScalar : Registry := [specPersonScalar]

/-- Person row 1: id 1, age 10. -/
def personRow1 : Entity := [("id", .vnum 1), ("age", .vnum 10)]

/-- Person row 2: id 2, age 20. -/
def personRow2 : Entity := [("id", .vnum 2), ("age", .vnum 20)]

/-- The store after creating rows 1 and 2 through Repository.create. -/
def stTwoRows : Store :=
  (repoCreate regScalar 9 specPersonScalar personRow2
    (repoCreate regScalar 9 specPersonScalar personRow1 []).1).1

/-- The condition of the query: age equals 10 (true of row 1 only). -/
def condAge10 : Cond := ⟨"age", fun v => valEqb v (.vnum 10)⟩

/-- C1 (code evaluated at the failing input): on the two-row table,
row 2 fails the accumulated condition, yet where-getAll returns both
rows — the conditional getAll ignores its conditions because the
async filter callback is truthy on every element. -/
theorem c1_conditional_getAll_ignores_conditions :
    checkConditionByIndex regScalar specPersonScalar [condAge10] (.vnum 2)
      stTwoRows = .ok false ∧
    condGetAll regScalar 9 specPersonScalar [condAge10] emptyInclude stTwoRows =
      .ok [.sobj [("age", .prim (.vnum 10)), ("id", .prim (.vnum 1))] [],
           .sobj [("age", .prim (.vnum 20)), ("id", .prim (.vnum 2))] []] := by
  exact ⟨rfl, rfl⟩

/-- C3 (code evaluated at the failing input): on the two-row table
exactly one row passes all conditions, so the claimed behaviour of
single is to return that row; the code instead counts every row in
the table index and throws the more-than-one error. -/
theorem c3_single_counts_all_rows :
    checkConditionByIndex regScalar specPersonScalar [condAge10] (.vnum 1)
      stTwoRows = .ok true ∧
    checkConditionByIndex regScalar specPersonScalar [condAge10] (.vnum 2)
      stTwoRows = .ok false ∧
    condSingle regScalar 9 specPersonScalar [condAge10] emptyInclude stTwoRows =
      .error "More than one record found while expecting exactly one" := by
  exact ⟨rfl, rfl, rfl⟩

/-! ### Claim C7: getByIds is all-or-nothing -/

/-- The load loop returns one record per requested id, in the order
requested: element i of the result is the result of loading id i with
the index check skipped (at some sufficient fuel). -/
theorem qeach_ok_spec (reg : Registry) (spec : ClassSpec) (incMap : IncludeNode)
    (st : Store) : ∀ (fuel : Nat) (ids : List Value) (l : List SVal),
    queryRun reg fuel (.qeach spec incMap ids) st = .ok (.qmany l) →
    l.length = ids.length ∧
    ∀ i (hi : i < ids.length), ∃ v, l[i]? = some v ∧
      ∃ fu, fu ≤ fuel ∧
        queryRun reg fu (.qbyId spec incMap (some ids[i]) true) st = .ok (.qone v) := by
  intro fuel
  induction fuel with
  | zero => intro ids l h; exact absurd h (by simp [queryRun])
  | succ fuel ih =>
    intro ids l h
    cases ids with
    | nil =>
      rw [queryRun_succ_qeach_nil] at h
      have hl : l = [] := by
        have := Except.ok.inj h
        injection this with h2
        exact h2.symm
      subst hl
      exact ⟨rfl, fun i hi => absurd hi (by simp)⟩
    | cons id rest =>
      rw [queryRun_succ_qeach_cons] at h
      cases h1 : queryRun reg fuel (.qbyId spec incMap (some id) true) st with
      | error e => rw [h1] at h; exact absurd h (by simp)
      | ok o =>
        rw [h1] at h
        cases o with
        | qmany vs => exact absurd h (by simp)
        | qone v =>
          cases h2 : queryRun reg fuel (.qeach spec incMap rest) st with
          | error e => rw [h2] at h; exact absurd h (by simp)
          | ok o2 =>
            rw [h2] at h
            cases o2 with
            | qone w => exact absurd h (by simp)
            | qmany vs =>
              have hl : l = v :: vs := by
                have := Except.ok.inj h
                injection this with h3
                exact h3.symm
              subst hl
              obtain ⟨hlen, helem⟩ := ih rest vs h2
              refine ⟨by simp [hlen], ?_⟩
              intro i hi
              cases i with
              | zero =>
                exact ⟨v, by simp, fuel, Nat.le_succ fuel, by simpa using h1⟩
              | succ i =>
                have hi' : i < rest.length := by simpa using hi
                obtain ⟨w, hw, fu, hfu, hq⟩ := helem i hi'
                exact ⟨w, by simpa using hw, fu, Nat.le_succ_of_le hfu,
                  by simpa using hq⟩

/-- C7: getByIds fails as a whole, loading nothing, when any
requested id is absent from the table index; on success every
requested id was present and the result holds one loaded record per
requested id, in the order requested. -/
theorem c7_getByIds_all_or_nothing (reg : Registry) (fuel : Nat)
    (spec : ClassSpec) (incMap : IncludeNode) (ids : List Value) (st : Store) :
    ((ids.any (fun id =>
        !(jsIncludes (getTableIndexIds st spec.tableName) (some id)))) = true →
      qGetByIds reg (fuel + 1) spec incMap ids st =
        .error ("One or more ids are missing in table: " ++ spec.tableName)) ∧
    (∀ l, qGetByIds reg (fuel + 1) spec incMap ids st = .ok l →
      (∀ id ∈ ids, jsIncludes (getTableIndexIds st spec.tableName) (some id) = true) ∧
      l.length = ids.length ∧
      ∀ i (hi : i < ids.length), ∃ v, l[i]? = some v ∧
        qGetById reg (fuel + 1) spec incMap (some ids[i]) true st = .ok v) := by
  constructor
  · intro hany
    unfold qGetByIds
    rw [queryRun_succ_qbyIds, if_pos hany]
  · intro l hok
    unfold qGetByIds at hok
    rw [queryRun_succ_qbyIds] at hok
    by_cases hany : (ids.any (fun id =>
        !(jsIncludes (getTableIndexIds st spec.tableName) (some id)))) = true
    · rw [if_pos hany] at hok
      exact absurd hok (by simp)
    · rw [if_neg hany] at hok
      have hall : ∀ id ∈ ids,
          jsIncludes (getTableIndexIds st spec.tableName) (some id) = true := by
        intro id hid
        by_contra hcon
        exact hany (List.any_eq_true.mpr ⟨id, hid, by
          simp only [Bool.not_eq_true] at hcon
          simp [hcon]⟩)
      cases hq : queryRun reg fuel (.qeach spec incMap ids) st with
      | error e => rw [hq] at hok; exact absurd hok (by simp)
      | ok o =>
        rw [hq] at hok
        cases o with
        | qone v => exact absurd hok (by simp)
        | qmany vs =>
          have hl : l = vs := (Except.ok.inj hok).symm
          subst hl
          obtain ⟨hlen, helem⟩ := qeach_ok_spec reg spec incMap st fuel ids l hq
          refine ⟨hall, hlen, ?_⟩
          intro i hi
          obtain ⟨v, hv, fu, hfu, hload⟩ := helem i hi
          refine ⟨v, hv, ?_⟩
          unfold qGetById
          rw [queryRun_mono_le reg (Nat.le_trans hfu (Nat.le_succ fuel)) _ st
            (by rw [hload]; simp), hload]

/-- Witness for C7 at a concrete table: a request containing the
absent id 3 fails as a whole with the missing-ids error. -/
theorem c7_getByIds_all_or_nothing_witness :
    qGetByIds regScalar 9 specPersonScalar emptyInclude
      [.vnum 1, .vnum 3] stTwoRows =
      .error ("One or more ids are missing in table: " ++ "person") :=
  (c7_getByIds_all_or_nothing regScalar 8 specPersonScalar emptyInclude
    [.vnum 1, .vnum 3] stTwoRows).1 (by rfl)

/-! ### Claim C2: the create/getById round-trip

The round-trip as claimed fails for falsy scalar values: the driver
stores a falsy value as the empty string (which reads back null), and
getById skips every falsy read, so a field holding false, 0 or the
empty string is absent from the returned object. -/

/-- A scalar-only schema with a boolean field. -/
def specFlag : ClassSpec := ⟨"Flag", "flag", "id", ["id", "flag"], []⟩

/-- A registry holding only the Flag schema. -/
def regFlag : Registry := [specFlag]

/-- An entity whose scalar field flag is false. -/
def flagRow : Entity := [("id", .vnum 1), ("flag", .vbool false)]

/-- The store after creating the false-flagged entity. -/
def stFlag : Store := (repoCreate regFlag 9 specFlag flagRow []).1

/-- C2 counterexample: create of an entity with a false-valued scalar
field succeeds, but getById returns an object with that field absent
(reading it yields undefined, not false), so the round-trip is not an
equality on every scalar field. -/
theorem c2_roundtrip_counterexample :
    (repoCreate regFlag 9 specFlag flagRow []).2 = .ok (flagRow, some (.vnum 1)) ∧
    getProp flagRow "flag" = some (.vbool false) ∧
    qGetById regFlag 9 specFlag emptyInclude (some (.vnum 1)) false stFlag =
      .ok (.sobj [("id", .prim (.vnum 1))] []) ∧
    shadowGet (.sobj [("id", .prim (.vnum 1))] []) "flag" = .ok none :=
  ⟨rfl, rfl, rfl, rfl⟩

/-- C2 amended: for a scalar-only schema, create then getById returns
an object that agrees with the created entity on every scalar field
whose value is truthy, while every scalar field whose value is falsy
or unset is absent from the result. -/
theorem c2_roundtrip_truthy_scalars
    (reg : Registry) (fuel qfuel : Nat) (spec : ClassSpec) (inst inst' : Entity)
    (st st' : Store) (idv : Option Value)
    (hrel : spec.relationalProperties = [])
    (hnd : spec.nonRelationalProperties.Nodup)
    (hkeys : ∀ p ∈ spec.nonRelationalProperties,
      getDataKey reg spec.tableName (getProp inst spec.identifierProperty) p =
        .ok (dataKeyString spec.tableName (getProp inst spec.identifierProperty) p))
    (hrefl : valEqbOpt ((getProp inst spec.identifierProperty).getD .vnull)
      (getProp inst spec.identifierProperty) = true)
    (hcr : repoCreate reg (fuel + 2) spec inst st = (st', .ok (inst', idv))) :
    ∃ res,
      qGetById reg (qfuel + 3) spec emptyInclude
        (getProp inst spec.identifierProperty) false st' = .ok res ∧
      ∀ p ∈ spec.nonRelationalProperties,
        shadowGet res p =
          .ok (if truthy ((getProp inst p).getD .vnull)
            then some (.prim ((getProp inst p).getD .vnull)) else none) := by
  unfold repoCreate at hcr
  simp only [repoRun_succ_rcreate, hrel, repoRun_succ_rrels_nil] at hcr
  rcases hadd : addTableIndex st spec.tableName
      (getProp inst spec.identifierProperty) with ⟨st1, r1⟩
  simp only [hadd] at hcr
  cases r1 with
  | error e => exact absurd (congrArg Prod.snd hcr) (by simp)
  | ok u =>
    rcases hws : writeScalars reg spec.tableName
        (getProp inst spec.identifierProperty)
        spec.nonRelationalProperties inst st1 with ⟨st2, r2⟩
    simp only [hws] at hcr
    cases r2 with
    | error e => exact absurd (congrArg Prod.snd hcr) (by simp)
    | ok u2 =>
      have hst' : st' = st2 := (congrArg Prod.fst hcr).symm
      subst hst'
      have hws1 : (writeScalars reg spec.tableName
          (getProp inst spec.identifierProperty)
          spec.nonRelationalProperties inst st1).1 = st' := by rw [hws]
      -- the table index at the final store still contains the identifier
      have hidx : getTableIndexIds st' spec.tableName =
          getTableIndexIds st1 spec.tableName := by
        unfold getTableIndexIds
        rw [← hws1, writeScalars_frame reg spec.tableName _ _ inst st1 _
          (fun p _ => dataKey_ne_tableIndexKey _ _ _ _)]
      have hmem : jsIncludes (getTableIndexIds st' spec.tableName)
          (getProp inst spec.identifierProperty) = true := by
        rw [hidx]
        cases u
        exact addTableIndex_ok_mem st spec.tableName _ st1 hadd hrefl
      -- the cells of the scalar fields at the final store
      have hcell : ∀ p ∈ spec.nonRelationalProperties,
          driverRead st' (dataKeyString spec.tableName
            (getProp inst spec.identifierProperty) p) =
          (if truthy ((getProp inst p).getD .vnull)
            then (getProp inst p).getD .vnull else .vnull) := by
        intro p hp
        rw [← hws1]
        exact writeScalars_read reg spec.tableName _ _ inst st1 p hnd hkeys hp
      -- getById: index check passes, the record is rebuilt, includes are empty
      obtain ⟨res0, hres0, _, hchar⟩ := readRecord_spec reg spec.tableName
        (getProp inst spec.identifierProperty) st'
        spec.nonRelationalProperties [] hkeys
      refine ⟨baseShadow res0 [], ?_, ?_⟩
      · unfold qGetById
        rw [queryRun_succ_qbyId]
        have hq : queryRun reg (qfuel + 2) (.qattach spec emptyInclude res0) st' =
            .ok (.qone (baseShadow res0
              (spec.relationalProperties.map (fun r => r.name)))) := by
          rw [queryRun_succ_qattach,
            show emptyInclude.children = ([] : List (String × IncludeNode)) from rfl,
            queryRun_succ_qloop_nil]
        simp only [hmem, Bool.not_true, Bool.not_false, Bool.true_and,
          Bool.false_eq_true, if_false, hres0, hq, hrel, List.map_nil]
      · intro p hp
        rw [shadowGet_baseShadow res0 [] p (by simp)]
        rw [hchar hnd p hp, hcell p hp]
        by_cases ht : truthy ((getProp inst p).getD .vnull) = true
        · simp only [ht, if_true]
          have : getProp [] p = (none : Option Value) := rfl
          simp [ht]
        · rw [Bool.not_eq_true] at ht
          simp only [ht, Bool.false_eq_true, if_false]
          simp [truthy, getProp]

/-- Witness for C2 (amended) at a concrete entity with truthy scalar
values: both fields round-trip. -/
theorem c2_roundtrip_truthy_scalars_witness :
    ∃ res,
      qGetById regScalar 9 specPersonScalar emptyInclude
        (getProp personRow1 specPersonScalar.identifierProperty) false
        (repoCreate regScalar 9 specPersonScalar personRow1 []).1 = .ok res ∧
      ∀ p ∈ specPersonScalar.nonRelationalProperties,
        shadowGet res p =
          .ok (if truthy ((getProp personRow1 p).getD .vnull)
            then some (.prim ((getProp personRow1 p).getD .vnull)) else none) :=
  c2_roundtrip_truthy_scalars regScalar 7 6 specPersonScalar personRow1
    personRow1 [] (repoCreate regScalar 9 specPersonScalar personRow1 []).1
    (some (.vnum 1)) (by rfl) (by decide)
    (by intro p hp; fin_cases hp <;> rfl) (by rfl) (by rfl)

/-! ### Claim C9: the frame of Repository.update -/

/-- A collection field that cascades nothing: absent, an empty array,
or a falsy non-array value. -/
def collectionUnset : Option Value → Bool
  | none => true
  | some (.varr []) => true
  | some (.varr (_ :: _)) => false
  | some v => !truthy v

/-- addRelationIndex touches only its own bucket key. -/
theorem addRelationIndex_frame (st : Store) (dt srcT fk : String)
    (fkv idv : Option Value) (k : String)
    (hk : relationIndexKey dt srcT fk fkv ≠ k) :
    driverRead (addRelationIndex st dt srcT fk fkv idv).1 k = driverRead st k := by
  unfold addRelationIndex
  cases hv : driverRead st (relationIndexKey dt srcT fk fkv) with
  | varr xs =>
    simp only [hv]
    by_cases hmem : jsIncludes xs idv = true
    · simp only [hmem, if_true]
    · simp only [hmem, if_false]
      exact driverRead_write_ne st _ (fun he => hk he.symm)
  | vnull => simp only [hv, truthy, Bool.false_eq_true, if_false]
             exact driverRead_write_ne st _ (fun he => hk he.symm)
  | vbool b =>
    cases b with
    | true => simp only [hv, truthy, if_true]
    | false =>
      simp only [hv, truthy, Bool.false_eq_true, if_false]
      exact driverRead_write_ne st _ (fun he => hk he.symm)
  | vnum n =>
    by_cases hn : (n != 0) = true
    · simp only [hv, truthy, hn, if_true]
    · rw [Bool.not_eq_true] at hn
      simp only [hv, truthy, hn, Bool.false_eq_true, if_false]
      exact driverRead_write_ne st _ (fun he => hk he.symm)
  | vstr sv =>
    by_cases hn : (sv != "") = true
    · simp only [hv, truthy, hn, if_true]
    · rw [Bool.not_eq_true] at hn
      simp only [hv, truthy, hn, Bool.false_eq_true, if_false]
      exact driverRead_write_ne st _ (fun he => hk he.symm)
  | vobj fs => simp only [hv, truthy, if_true]

/-- The relational cascade over relations that are all unset: the
instance comes through unchanged (or the call fails), and the store
is only touched at the singular relations' bucket keys. -/
theorem rrels_unset (reg : Registry) (spec : ClassSpec) :
    ∀ (rels : List RelProp) (fuel : Nat) (inst : Entity) (idv : Option Value)
      (st : Store),
    (∀ r ∈ rels, (r.isCollection = false ∧ truthyOpt (getProp inst r.name) = false) ∨
      (r.isCollection = true ∧ collectionUnset (getProp inst r.name) = true)) →
    ((repoRun reg fuel (.rrels spec rels inst idv) st).2 = .ok (.rdone inst none) ∨
      ∃ e, (repoRun reg fuel (.rrels spec rels inst idv) st).2 = .error e) ∧
    ∀ k, (∀ r ∈ rels, ∀ cs : ClassSpec, getSpecificationFor reg r.className = .ok cs →
        relationIndexKey cs.tableName spec.tableName
          r.correspondingIdentifierProperty
          (getProp inst r.correspondingIdentifierProperty) ≠ k) →
      driverRead (repoRun reg fuel (.rrels spec rels inst idv) st).1 k =
        driverRead st k := by
  intro rels
  induction rels with
  | nil =>
    intro fuel inst idv st _
    cases fuel with
    | zero => exact ⟨.inr ⟨_, rfl⟩, fun k _ => rfl⟩
    | succ fuel => exact ⟨.inl rfl, fun k _ => rfl⟩
  | cons r rs ih =>
    intro fuel inst idv st hunset
    cases fuel with
    | zero => exact ⟨.inr ⟨_, rfl⟩, fun k _ => rfl⟩
    | succ fuel =>
      have hskip : ∀ st₀,
          ((repoRun reg fuel (.rrels spec rs inst idv) st₀).2 =
              .ok (.rdone inst none) ∨
            ∃ e, (repoRun reg fuel (.rrels spec rs inst idv) st₀).2 = .error e) ∧
          ∀ k, (∀ q ∈ r :: rs, ∀ cs : ClassSpec,
              getSpecificationFor reg q.className = .ok cs →
              relationIndexKey cs.tableName spec.tableName
                q.correspondingIdentifierProperty
                (getProp inst q.correspondingIdentifierProperty) ≠ k) →
            driverRead (repoRun reg fuel (.rrels spec rs inst idv) st₀).1 k =
              driverRead st₀ k := by
        intro st₀
        obtain ⟨h1, h2⟩ := ih fuel inst idv st₀ (fun q hq => hunset q (by simp [hq]))
        exact ⟨h1, fun k hk => h2 k (fun q hq cs hcsq => hk q (by simp [hq]) cs hcsq)⟩
      rcases hunset r (by simp) with ⟨hcoll, hfalsy⟩ | ⟨hcoll, hcu⟩
      · -- singular, related object not populated
        cases hcs : getSpecificationFor reg r.className with
        | error e =>
          have hrun : repoRun reg (fuel + 1) (.rrels spec (r :: rs) inst idv) st =
              (st, .error e) := by
            simp only [repoRun, hcoll, Bool.not_false, if_true, hcs]
          rw [hrun]
          exact ⟨.inr ⟨e, rfl⟩, fun k _ => rfl⟩
        | ok childSpec =>
          rcases hadd : addRelationIndex st childSpec.tableName spec.tableName
              r.correspondingIdentifierProperty
              (getProp inst r.correspondingIdentifierProperty) idv with ⟨stA, rA⟩
          have hframeA : ∀ k,
              relationIndexKey childSpec.tableName spec.tableName
                r.correspondingIdentifierProperty
                (getProp inst r.correspondingIdentifierProperty) ≠ k →
              driverRead stA k = driverRead st k := by
            intro k hk
            have hfr := addRelationIndex_frame st childSpec.tableName spec.tableName
              r.correspondingIdentifierProperty
              (getProp inst r.correspondingIdentifierProperty) idv k hk
            rw [hadd] at hfr
            exact hfr
          cases rA with
          | error e =>
            have hrun : repoRun reg (fuel + 1) (.rrels spec (r :: rs) inst idv) st =
                (stA, .error e) := by
              simp only [repoRun, hcoll, Bool.not_false, if_true, hcs, hfalsy,
                Bool.false_eq_true, if_false, hadd]
            rw [hrun]
            exact ⟨.inr ⟨e, rfl⟩, fun k hk =>
              hframeA k (hk r (by simp) childSpec hcs)⟩
          | ok u =>
            cases u
            have hrun : repoRun reg (fuel + 1) (.rrels spec (r :: rs) inst idv) st =
                repoRun reg fuel (.rrels spec rs inst idv) stA := by
              simp only [repoRun, hcoll, Bool.not_false, if_true, hcs, hfalsy,
                Bool.false_eq_true, if_false, hadd]
            rw [hrun]
            obtain ⟨h1, h2⟩ := hskip stA
            refine ⟨h1, ?_⟩
            intro k hk
            rw [h2 k hk]
            exact hframeA k (hk r (by simp) childSpec hcs)
      · -- collection, nothing to cascade
        have hrun : repoRun reg (fuel + 1) (.rrels spec (r :: rs) inst idv) st =
            repoRun reg fuel (.rrels spec rs inst idv) st := by
          cases hgp : getProp inst r.name with
          | none =>
            simp only [repoRun, hcoll, Bool.not_true, Bool.false_eq_true,
              if_false, hgp]
          | some v =>
            rw [hgp] at hcu
            cases v with
            | varr items =>
              cases items with
              | nil =>
                simp only [repoRun, hcoll, Bool.not_true, Bool.false_eq_true,
                  if_false, hgp]
              | cons m ms => exact absurd hcu (by simp [collectionUnset])
            | vnull =>
              simp only [repoRun, hcoll, Bool.not_true, Bool.false_eq_true,
                if_false, hgp, truthy]
            | vbool b =>
              cases b with
              | true => exact absurd hcu (by simp [collectionUnset, truthy])
              | false =>
                simp only [repoRun, hcoll, Bool.not_true, Bool.false_eq_true,
                  if_false, hgp, truthy]
            | vnum n =>
              by_cases hn : (n != 0) = true
              · exact absurd hcu (by simp [collectionUnset, truthy, hn])
              · rw [Bool.not_eq_true] at hn
                simp only [repoRun, hcoll, Bool.not_true, Bool.false_eq_true,
                  if_false, hgp, truthy, hn]
            | vstr sv =>
              by_cases hn : (sv != "") = true
              · exact absurd hcu (by simp [collectionUnset, truthy, hn])
              · rw [Bool.not_eq_true] at hn
                simp only [repoRun, hcoll, Bool.not_true, Bool.false_eq_true,
                  if_false, hgp, truthy, hn]
            | vobj fs => exact absurd hcu (by simp [collectionUnset, truthy])
        rw [hrun]
        exact hskip st

/-- A self-referential schema: Person has one boss, also a Person,
through the scalar foreign key bossId. -/
def specSelf : ClassSpec :=
  ⟨"Person", "person", "id", ["id", "bossId"],
    [⟨"boss", "Person", "bossId", false⟩]⟩

/-- A registry holding the self-referential Person schema. -/
def regSelf : Registry := [specSelf]

/-- An instance carrying a populated related object: person 1 whose
boss field holds person 2. -/
def personWithBoss : Entity :=
  [("id", .vnum 1), ("boss", .vobj [("id", .vnum 2)])]

/-- C9 counterexample: update of an entity carrying a populated
self-referential singular relation succeeds, and changes the table
identifier index of the entity's own table (the cascade creates the
related person, adding identifier 2), so update does not leave the
table identifier index unchanged. -/
theorem c9_update_counterexample :
    getTableIndexIds [] "person" = [] ∧
    ((repoUpdate regSelf 9 specSelf personWithBoss []).2.toOption).isSome = true ∧
    getTableIndexIds (repoUpdate regSelf 9 specSelf personWithBoss []).1 "person" =
      [.vnum 2] :=
  ⟨rfl, rfl, rfl⟩

/-- C9 amended: update performs the relational cascade and writes
every scalar field, and never itself touches the table index; when
every relational field of the instance is unset — no populated
related object and no collection member, so the cascade only
maintains relation-index buckets — the table identifier index is
completely unchanged, including when the entity's identifier is not
in it: the scalar keys are still written while the index cell stays
exactly as it was. -/
theorem c9_update_frame
    (reg : Registry) (fuel : Nat) (spec : ClassSpec) (inst inst2 : Entity)
    (st st' : Store) (idv : Option Value)
    (hunset : ∀ r ∈ spec.relationalProperties,
      (r.isCollection = false ∧ truthyOpt (getProp inst r.name) = false) ∨
      (r.isCollection = true ∧ collectionUnset (getProp inst r.name) = true))
    (hbuckets : ∀ r ∈ spec.relationalProperties, ∀ cs : ClassSpec,
      getSpecificationFor reg r.className = .ok cs →
      relationIndexKey cs.tableName spec.tableName
        r.correspondingIdentifierProperty
        (getProp inst r.correspondingIdentifierProperty) ≠
        tableIndexKey spec.tableName)
    (hnd : spec.nonRelationalProperties.Nodup)
    (hkeys : ∀ p ∈ spec.nonRelationalProperties,
      getDataKey reg spec.tableName (getProp inst spec.identifierProperty) p =
        .ok (dataKeyString spec.tableName (getProp inst spec.identifierProperty) p))
    (hupd : repoUpdate reg (fuel + 1) spec inst st = (st', .ok (inst2, idv))) :
    getTableIndexIds st' spec.tableName = getTableIndexIds st spec.tableName ∧
    inst2 = inst ∧
    ∀ p ∈ spec.nonRelationalProperties,
      driverRead st' (dataKeyString spec.tableName
        (getProp inst spec.identifierProperty) p) =
      (if truthy ((getProp inst p).getD .vnull)
        then (getProp inst p).getD .vnull else .vnull) := by
  unfold repoUpdate at hupd
  simp only [repoRun_succ_rupdate] at hupd
  rcases hrr : repoRun reg fuel
      (.rrels spec spec.relationalProperties inst
        (getProp inst spec.identifierProperty)) st with ⟨stR, rR⟩
  simp only [hrr] at hupd
  obtain ⟨hres, hframe⟩ := rrels_unset reg spec spec.relationalProperties fuel
    inst (getProp inst spec.identifierProperty) st hunset
  rw [hrr] at hres hframe
  cases rR with
  | error e => exact absurd (congrArg Prod.snd hupd) (by simp)
  | ok out =>
    have hout : out = .rdone inst none := by
      rcases hres with hok | ⟨e, he⟩
      · exact Except.ok.inj hok
      · exact absurd he (by simp)
    subst hout
    rcases hws : writeScalars reg spec.tableName
        (getProp inst spec.identifierProperty)
        spec.nonRelationalProperties inst stR with ⟨st2, r2⟩
    simp only [hws] at hupd
    cases r2 with
    | error e => exact absurd (congrArg Prod.snd hupd) (by simp)
    | ok u2 =>
      have hst' : st' = st2 := (congrArg Prod.fst hupd).symm
      subst hst'
      have hinst2 : inst2 = inst := by
        have := congrArg Prod.snd hupd
        simp only at this
        exact (Prod.mk.injEq _ _ _ _ ▸ Except.ok.inj this).1.symm
      have hws1 : (writeScalars reg spec.tableName
          (getProp inst spec.identifierProperty)
          spec.nonRelationalProperties inst stR).1 = st' := by rw [hws]
      refine ⟨?_, hinst2, ?_⟩
      · unfold getTableIndexIds
        rw [← hws1, writeScalars_frame reg spec.tableName _ _ inst stR _
          (fun p _ => dataKey_ne_tableIndexKey _ _ _ _)]
        rw [hframe (tableIndexKey spec.tableName)
          (fun r hr cs hcs => hbuckets r hr cs hcs)]
      · intro p hp
        rw [← hws1]
        exact writeScalars_read reg spec.tableName _ _ inst stR p hnd hkeys hp

/-- A two-schema registry: Person with an unset singular relation to
Address through addressId. -/
def specOwner : ClassSpec :=
  ⟨"Person", "person", "id", ["id", "addressId"],
    [⟨"address", "Address", "addressId", false⟩]⟩

/-- The Address schema. -/
def specAddress : ClassSpec := ⟨"Address", "address", "id", ["id"], []⟩

/-- The registry holding Person and Address. -/
def regOwner : Registry := [specOwner, specAddress]

/-- Person 1 with no populated relation. -/
def ownerRow : Entity := [("id", .vnum 1)]

/-- Witness for C9 (amended) at a concrete entity with an unset
singular relation, updated against the empty store: the update
succeeds, the table index stays empty, and the scalar cells are
written. -/
theorem c9_update_frame_witness :
    getTableIndexIds (repoUpdate regOwner 9 specOwner ownerRow []).1 "person" =
      getTableIndexIds ([] : Store) "person" ∧
    ([("id", Value.vnum 1)] : Entity) = ownerRow ∧
    ∀ p ∈ specOwner.nonRelationalProperties,
      driverRead (repoUpdate regOwner 9 specOwner ownerRow []).1
        (dataKeyString "person" (getProp ownerRow "id") p) =
      (if truthy ((getProp ownerRow p).getD .vnull)
        then (getProp ownerRow p).getD .vnull else .vnull) := by
  have h := c9_update_frame regOwner 8 specOwner ownerRow
    [("id", Value.vnum 1)] [] (repoUpdate regOwner 9 specOwner ownerRow []).1
    (some (.vnum 1))
    (by intro r hr; fin_cases hr; left; exact ⟨rfl, rfl⟩)
    (by intro r hr cs hcs; fin_cases hr
        have : cs = specAddress := Except.ok.inj (by
          rw [← hcs]; rfl)
        subst this
        decide)
    (by decide)
    (by intro p hp; fin_cases hp <;> rfl)
    (by rfl)
  exact h

/-! ### Claims C5 and C10: the effects and the frame of
Repository.delete -/

/-- Filtering a value out of a list removes it in the includes
sense. -/
theorem jsIncludes_filter_self (xs : List Value) (idv : Option Value) :
    jsIncludes (xs.filter (fun x => !(valEqbOpt x idv))) idv = false := by
  unfold jsIncludes
  rw [List.any_eq_false]
  intro x hx
  have h2 := (List.mem_filter.mp hx).2
  simp only [Bool.not_eq_true'] at h2
  simp [h2]

/-- removeTableIndex touches only its own table index key. -/
theorem removeTableIndex_frame (st : Store) (t : String) (idv : Option Value)
    (k : String) (hk : tableIndexKey t ≠ k) :
    driverRead (removeTableIndex st t idv) k = driverRead st k := by
  unfold removeTableIndex
  cases hv : driverRead st (tableIndexKey t) with
  | varr xs =>
    simp only
    exact driverRead_write_ne st _ (fun he => hk he.symm)
  | vnull => rfl
  | vbool b => rfl
  | vnum n => rfl
  | vstr sv => rfl
  | vobj fs => rfl

/-- After removeTableIndex the identifier is no longer a member of
the table index. -/
theorem removeTableIndex_not_mem (st : Store) (t : String) (idv : Option Value) :
    jsIncludes (getTableIndexIds (removeTableIndex st t idv) t) idv = false := by
  unfold removeTableIndex
  cases hv : driverRead st (tableIndexKey t) with
  | varr xs =>
    simp only
    unfold getTableIndexIds
    rw [driverRead_write_self]
    simp only [truthy, if_true]
    exact jsIncludes_filter_self xs idv
  | vnull => unfold getTableIndexIds; rw [hv]; rfl
  | vbool b => unfold getTableIndexIds; rw [hv]; rfl
  | vnum n => unfold getTableIndexIds; rw [hv]; rfl
  | vstr sv => unfold getTableIndexIds; rw [hv]; rfl
  | vobj fs => unfold getTableIndexIds; rw [hv]; rfl

/-- removeRelationIndex touches only its own bucket key. -/
theorem removeRelationIndex_frame (st : Store) (dt srcT fk : String)
    (fkv idv : Option Value) (k : String)
    (hk : relationIndexKey dt srcT fk fkv ≠ k) :
    driverRead (removeRelationIndex st dt srcT fk fkv idv) k = driverRead st k := by
  unfold removeRelationIndex
  cases hv : driverRead st (relationIndexKey dt srcT fk fkv) with
  | varr xs =>
    simp only [hv]
    exact driverRead_write_ne st _ (fun he => hk he.symm)
  | vnull => simp only [hv]
  | vbool b => simp only [hv]
  | vnum n => simp only [hv]
  | vstr sv => simp only [hv]
  | vobj fs => simp only [hv]

/-- After removeRelationIndex the identifier is no longer a member of
that bucket. -/
theorem removeRelationIndex_not_mem (st : Store) (dt srcT fk : String)
    (fkv idv : Option Value) :
    jsIncludes ((getRelationIndexIds
      (removeRelationIndex st dt srcT fk fkv idv) dt srcT fk fkv).getD [])
      idv = false := by
  unfold removeRelationIndex
  cases hv : driverRead st (relationIndexKey dt srcT fk fkv) with
  | varr xs =>
    simp only [hv]
    unfold getRelationIndexIds
    rw [driverRead_write_self]
    simp only [truthy, if_true, Option.getD_some]
    exact jsIncludes_filter_self xs idv
  | vnull => simp only [hv]; unfold getRelationIndexIds; simp only [hv]; rfl
  | vbool b => simp only [hv]; unfold getRelationIndexIds; simp only [hv]; rfl
  | vnum n => simp only [hv]; unfold getRelationIndexIds; simp only [hv]; rfl
  | vstr sv => simp only [hv]; unfold getRelationIndexIds; simp only [hv]; rfl
  | vobj fs => simp only [hv]; unfold getRelationIndexIds; simp only [hv]; rfl

/-- removeRelationIndexRecord touches only its own bucket key. -/
theorem removeRelationIndexRecord_frame (st : Store) (dt srcT fk : String)
    (fkv : Option Value) (k : String)
    (hk : relationIndexKey dt srcT fk fkv ≠ k) :
    driverRead (removeRelationIndexRecord st dt srcT fk fkv) k = driverRead st k := by
  unfold removeRelationIndexRecord
  exact driverRead_remove_ne st (fun he => hk he.symm)

/-- Removing a key removes its binding. -/
theorem rawRead_rawRemove_self (st : Store) (k : String) :
    rawRead (rawRemove st k) k = none := by
  unfold rawRead rawRemove
  have hfind : List.find? (fun c => c.1 == k)
      (st.filter (fun c => !(c.1 == k))) = none := by
    rw [List.find?_eq_none]
    intro x hx
    have h2 := (List.mem_filter.mp hx).2
    simpa using h2
  rw [hfind]
  rfl

/-- removeRelationIndexRecord deletes the whole bucket. -/
theorem removeRelationIndexRecord_gone (st : Store) (dt srcT fk : String)
    (fkv : Option Value) :
    getRelationIndexIds (removeRelationIndexRecord st dt srcT fk fkv)
      dt srcT fk fkv = none := by
  unfold getRelationIndexIds removeRelationIndexRecord driverRemove driverRead
  simp only [rawRead_rawRemove_self]

/-- The scalar-key removal loop of delete touches only the data keys
of its field list. -/
theorem deleteScalarKeys_frame (reg : Registry) (t : String) (idv : Option Value) :
    ∀ (props : List String) (st : Store) (k : String),
    (∀ p ∈ props, dataKeyString t idv p ≠ k) →
    driverRead (deleteScalarKeys reg t idv props st).1 k = driverRead st k := by
  intro props
  induction props with
  | nil => intro st k _; rfl
  | cons q qs ih =>
    intro st k hk
    unfold deleteScalarKeys
    cases hdk : getDataKey reg t idv q with
    | error e => rfl
    | ok key =>
      simp only [hdk]
      have hkey := getDataKey_ok_eq hdk
      subst hkey
      rw [ih _ k (fun p hp => hk p (by simp [hp]))]
      exact driverRead_remove_ne st (fun he => hk q (by simp) he.symm)

/-- The single storage key the delete relation loop touches for one
relation descriptor: the singular bucket keyed by the instance
foreign-key value, or the collection bucket keyed by the entity
identifier. -/
def deleteRelTouchedKey (reg : Registry) (spec : ClassSpec) (inst : Entity)
    (idv : Option Value) (r : RelProp) : Option String :=
  match getSpecificationFor reg r.className with
  | .error _ => none
  | .ok cs =>
    if !r.isCollection then
      some (relationIndexKey cs.tableName spec.tableName
        r.correspondingIdentifierProperty
        (getProp inst r.correspondingIdentifierProperty))
    else
      some (relationIndexKey spec.tableName cs.tableName
        r.correspondingIdentifierProperty idv)

/-- The delete relation loop touches only the touched keys of its
relation list. -/
theorem deleteRelLoop_frame (reg : Registry) (spec : ClassSpec) :
    ∀ (rels : List RelProp) (inst : Entity) (idv : Option Value) (st : Store)
      (k : String),
    (∀ r ∈ rels, ∀ s, deleteRelTouchedKey reg spec inst idv r = some s → s ≠ k) →
    driverRead (deleteRelLoop reg spec rels inst idv st).1 k = driverRead st k := by
  intro rels
  induction rels with
  | nil => intro inst idv st k _; rfl
  | cons r rs ih =>
    intro inst idv st k hk
    unfold deleteRelLoop
    cases hcs : getSpecificationFor reg r.className with
    | error e => rfl
    | ok cs =>
      simp only [hcs]
      by_cases hcoll : r.isCollection = true
      · simp only [hcoll, Bool.not_true, Bool.false_eq_true, if_false]
        rw [ih inst idv _ k (fun q hq s hs => hk q (by simp [hq]) s hs)]
        refine removeRelationIndexRecord_frame st _ _ _ _ k ?_
        refine hk r (by simp) _ ?_
        unfold deleteRelTouchedKey
        rw [hcs]
        simp [hcoll]
      · rw [Bool.not_eq_true] at hcoll
        simp only [hcoll, Bool.not_false, if_true]
        rw [ih inst idv _ k (fun q hq s hs => hk q (by simp [hq]) s hs)]
        refine removeRelationIndex_frame st _ _ _ _ _ k ?_
        refine hk r (by simp) _ ?_
        unfold deleteRelTouchedKey
        rw [hcs]
        simp [hcoll]

/-- Equal reads at the table index key give equal table indexes. -/
theorem getTableIndexIds_congr {st1 st2 : Store} (t : String)
    (h : driverRead st1 (tableIndexKey t) = driverRead st2 (tableIndexKey t)) :
    getTableIndexIds st1 t = getTableIndexIds st2 t := by
  unfold getTableIndexIds
  rw [h]

/-- Equal reads at the bucket key give equal buckets. -/
theorem getRelationIndexIds_congr {st1 st2 : Store} (dt srcT fk : String)
    (fkv : Option Value)
    (h : driverRead st1 (relationIndexKey dt srcT fk fkv) =
      driverRead st2 (relationIndexKey dt srcT fk fkv)) :
    getRelationIndexIds st1 dt srcT fk fkv =
      getRelationIndexIds st2 dt srcT fk fkv := by
  unfold getRelationIndexIds
  rw [h]

/-- The scalar-key removal loop succeeds when every field passes key
validation. -/
theorem deleteScalarKeys_ok (reg : Registry) (t : String) (idv : Option Value) :
    ∀ (props : List String) (st : Store),
    (∀ p ∈ props, getDataKey reg t idv p = .ok (dataKeyString t idv p)) →
    (deleteScalarKeys reg t idv props st).2 = .ok () := by
  intro props
  induction props with
  | nil => intro st _; rfl
  | cons q qs ih =>
    intro st hall
    unfold deleteScalarKeys
    simp only [hall q (by simp)]
    exact ih _ (fun p hp => hall p (by simp [hp]))

/-- The delete relation loop succeeds when every relation's class is
registered. -/
theorem deleteRelLoop_ok (reg : Registry) (spec : ClassSpec) :
    ∀ (rels : List RelProp) (inst : Entity) (idv : Option Value) (st : Store),
    (∀ q ∈ rels, ∃ cs, getSpecificationFor reg q.className = .ok cs) →
    (deleteRelLoop reg spec rels inst idv st).2 = .ok () := by
  intro rels
  induction rels with
  | nil => intro inst idv st _; rfl
  | cons r rs ih =>
    intro inst idv st hlook
    obtain ⟨cs, hcs⟩ := hlook r (by simp)
    unfold deleteRelLoop
    simp only [hcs]
    by_cases hcoll : r.isCollection = true
    · simp only [hcoll, Bool.not_true, Bool.false_eq_true, if_false]
      exact ih inst idv _ (fun q hq => hlook q (by simp [hq]))
    · rw [Bool.not_eq_true] at hcoll
      simp only [hcoll, Bool.not_false, if_true]
      exact ih inst idv _ (fun q hq => hlook q (by simp [hq]))

/-- After the delete relation loop, a singular relation's bucket keyed
by the instance foreign-key value no longer contains the entity
identifier (provided the loop's touched keys are pairwise distinct
and every relation's class is registered). -/
theorem deleteRelLoop_sing_removed (reg : Registry) (spec : ClassSpec) :
    ∀ (rels : List RelProp) (inst : Entity) (idv : Option Value) (st : Store),
    (∀ q ∈ rels, ∃ cs, getSpecificationFor reg q.className = .ok cs) →
    (rels.filterMap (deleteRelTouchedKey reg spec inst idv)).Nodup →
    ∀ r ∈ rels, r.isCollection = false →
    ∀ cs, getSpecificationFor reg r.className = .ok cs →
    jsIncludes ((getRelationIndexIds (deleteRelLoop reg spec rels inst idv st).1
      cs.tableName spec.tableName r.correspondingIdentifierProperty
      (getProp inst r.correspondingIdentifierProperty)).getD []) idv = false := by
  intro rels
  induction rels with
  | nil => intro inst idv st _ _ r hr; exact absurd hr (by simp)
  | cons q qs ih =>
    intro inst idv st hlook hnd r hr hcoll cs hcs
    obtain ⟨csq, hcsq⟩ := hlook q (by simp)
    have htq : deleteRelTouchedKey reg spec inst idv q =
        some (if !q.isCollection then
          relationIndexKey csq.tableName spec.tableName
            q.correspondingIdentifierProperty
            (getProp inst q.correspondingIdentifierProperty)
        else
          relationIndexKey spec.tableName csq.tableName
            q.correspondingIdentifierProperty idv) := by
      unfold deleteRelTouchedKey
      rw [hcsq]
      by_cases hc : q.isCollection = true
      · simp [hc]
      · rw [Bool.not_eq_true] at hc; simp [hc]
    have hfm : (q :: qs).filterMap (deleteRelTouchedKey reg spec inst idv) =
        (if !q.isCollection then
          relationIndexKey csq.tableName spec.tableName
            q.correspondingIdentifierProperty
            (getProp inst q.correspondingIdentifierProperty)
        else
          relationIndexKey spec.tableName csq.tableName
            q.correspondingIdentifierProperty idv) ::
        qs.filterMap (deleteRelTouchedKey reg spec inst idv) := by
      rw [List.filterMap_cons, htq]
    rw [hfm] at hnd
    have hndt := (List.nodup_cons.mp hnd).2
    have hhead := (List.nodup_cons.mp hnd).1
    rcases List.mem_cons.mp hr with hrq | hrqs
    · -- r is the head: its bucket is cleaned first, and the rest of
      -- the loop never touches that key again
      subst hrq
      have hcs' : csq = cs := by
        rw [hcsq] at hcs; exact Except.ok.inj hcs
      subst hcs'
      unfold deleteRelLoop
      simp only [hcsq, hcoll, Bool.not_false, if_true]
      have hkey : ∀ p ∈ qs, ∀ s2,
          deleteRelTouchedKey reg spec inst idv p = some s2 →
          s2 ≠ relationIndexKey csq.tableName spec.tableName
            r.correspondingIdentifierProperty
            (getProp inst r.correspondingIdentifierProperty) := by
        intro p hp s2 hs2 he
        apply hhead
        rw [hcoll] at *
        simp only [Bool.not_false, if_true]
        rw [← he]
        exact List.mem_filterMap.mpr ⟨p, hp, hs2⟩
      have hfr := deleteRelLoop_frame reg spec qs inst idv
        (removeRelationIndex st csq.tableName spec.tableName
          r.correspondingIdentifierProperty
          (getProp inst r.correspondingIdentifierProperty) idv)
        (relationIndexKey csq.tableName spec.tableName
          r.correspondingIdentifierProperty
          (getProp inst r.correspondingIdentifierProperty)) hkey
      rw [getRelationIndexIds_congr _ _ _ _ hfr]
      exact removeRelationIndex_not_mem st csq.tableName spec.tableName
        r.correspondingIdentifierProperty
        (getProp inst r.correspondingIdentifierProperty) idv
    · -- r is in the tail: apply the induction hypothesis at the
      -- store after the head was processed
      unfold deleteRelLoop
      simp only [hcsq]
      by_cases hqc : q.isCollection = true
      · simp only [hqc, Bool.not_true, Bool.false_eq_true, if_false]
        exact ih inst idv _ (fun p hp => hlook p (by simp [hp])) hndt
          r hrqs hcoll cs hcs
      · rw [Bool.not_eq_true] at hqc
        simp only [hqc, Bool.not_false, if_true]
        exact ih inst idv _ (fun p hp => hlook p (by simp [hp])) hndt
          r hrqs hcoll cs hcs

/-- After the delete relation loop, a collection relation's bucket
keyed by the entity identifier is gone entirely. -/
theorem deleteRelLoop_coll_removed (reg : Registry) (spec : ClassSpec) :
    ∀ (rels : List RelProp) (inst : Entity) (idv : Option Value) (st : Store),
    (∀ q ∈ rels, ∃ cs, getSpecificationFor reg q.className = .ok cs) →
    (rels.filterMap (deleteRelTouchedKey reg spec inst idv)).Nodup →
    ∀ r ∈ rels, r.isCollection = true →
    ∀ cs, getSpecificationFor reg r.className = .ok cs →
    getRelationIndexIds (deleteRelLoop reg spec rels inst idv st).1
      spec.tableName cs.tableName r.correspondingIdentifierProperty idv = none := by
  intro rels
  induction rels with
  | nil => intro inst idv st _ _ r hr; exact absurd hr (by simp)
  | cons q qs ih =>
    intro inst idv st hlook hnd r hr hcoll cs hcs
    obtain ⟨csq, hcsq⟩ := hlook q (by simp)
    have htq : deleteRelTouchedKey reg spec inst idv q =
        some (if !q.isCollection then
          relationIndexKey csq.tableName spec.tableName
            q.correspondingIdentifierProperty
            (getProp inst q.correspondingIdentifierProperty)
        else
          relationIndexKey spec.tableName csq.tableName
            q.correspondingIdentifierProperty idv) := by
      unfold deleteRelTouchedKey
      rw [hcsq]
      by_cases hc : q.isCollection = true
      · simp [hc]
      · rw [Bool.not_eq_true] at hc; simp [hc]
    have hfm : (q :: qs).filterMap (deleteRelTouchedKey reg spec inst idv) =
        (if !q.isCollection then
          relationIndexKey csq.tableName spec.tableName
            q.correspondingIdentifierProperty
            (getProp inst q.correspondingIdentifierProperty)
        else
          relationIndexKey spec.tableName csq.tableName
            q.correspondingIdentifierProperty idv) ::
        qs.filterMap (deleteRelTouchedKey reg spec inst idv) := by
      rw [List.filterMap_cons, htq]
    rw [hfm] at hnd
    have hndt := (List.nodup_cons.mp hnd).2
    have hhead := (List.nodup_cons.mp hnd).1
    rcases List.mem_cons.mp hr with hrq | hrqs
    · subst hrq
      have hcs' : csq = cs := by
        rw [hcsq] at hcs; exact Except.ok.inj hcs
      subst hcs'
      unfold deleteRelLoop
      simp only [hcsq, hcoll, Bool.not_true, Bool.false_eq_true, if_false]
      have hkey : ∀ p ∈ qs, ∀ s2,
          deleteRelTouchedKey reg spec inst idv p = some s2 →
          s2 ≠ relationIndexKey spec.tableName csq.tableName
            r.correspondingIdentifierProperty idv := by
        intro p hp s2 hs2 he
        apply hhead
        rw [hcoll] at *
        simp only [Bool.not_true, Bool.false_eq_true, if_false]
        rw [← he]
        exact List.mem_filterMap.mpr ⟨p, hp, hs2⟩
      have hfr := deleteRelLoop_frame reg spec qs inst idv
        (removeRelationIndexRecord st spec.tableName csq.tableName
          r.correspondingIdentifierProperty idv)
        (relationIndexKey spec.tableName csq.tableName
          r.correspondingIdentifierProperty idv) hkey
      rw [getRelationIndexIds_congr _ _ _ _ hfr]
      exact removeRelationIndexRecord_gone st spec.tableName csq.tableName
        r.correspondingIdentifierProperty idv
    · unfold deleteRelLoop
      simp only [hcsq]
      by_cases hqc : q.isCollection = true
      · simp only [hqc, Bool.not_true, Bool.false_eq_true, if_false]
        exact ih inst idv _ (fun p hp => hlook p (by simp [hp])) hndt
          r hrqs hcoll cs hcs
      · rw [Bool.not_eq_true] at hqc
        simp only [hqc, Bool.not_false, if_true]
        exact ih inst idv _ (fun p hp => hlook p (by simp [hp])) hndt
          r hrqs hcoll cs hcs

/-- Repository.delete leaves every key it does not touch unchanged:
the touched keys are the table index key of its own table, the scalar
data keys of the deleted row, and one relation-bucket key per
relation descriptor. -/
theorem repoDelete_frame (reg : Registry) (spec : ClassSpec) (inst : Entity)
    (st : Store) (k : String)
    (hk1 : tableIndexKey spec.tableName ≠ k)
    (hk2 : ∀ p ∈ spec.nonRelationalProperties,
      dataKeyString spec.tableName (getProp inst spec.identifierProperty) p ≠ k)
    (hk3 : ∀ r ∈ spec.relationalProperties, ∀ s,
      deleteRelTouchedKey reg spec inst (getProp inst spec.identifierProperty) r =
        some s → s ≠ k) :
    driverRead (repoDelete reg spec inst st).1 k = driverRead st k := by
  unfold repoDelete
  by_cases hin : jsIncludes (getTableIndexIds st spec.tableName)
      (getProp inst spec.identifierProperty) = true
  · simp only [hin, Bool.not_true, Bool.false_eq_true, if_false]
    rcases hds : deleteScalarKeys reg spec.tableName
        (getProp inst spec.identifierProperty) spec.nonRelationalProperties
        (removeTableIndex st spec.tableName
          (getProp inst spec.identifierProperty)) with ⟨st2, r2⟩
    have hfr1 : driverRead (removeTableIndex st spec.tableName
        (getProp inst spec.identifierProperty)) k = driverRead st k :=
      removeTableIndex_frame st spec.tableName _ k hk1
    have hfr2 : driverRead st2 k = driverRead st k := by
      have h := deleteScalarKeys_frame reg spec.tableName
        (getProp inst spec.identifierProperty) spec.nonRelationalProperties
        (removeTableIndex st spec.tableName
          (getProp inst spec.identifierProperty)) k hk2
      rw [hds] at h
      exact h.trans hfr1
    cases r2 with
    | error e => exact hfr2
    | ok u =>
      cases u
      rw [deleteRelLoop_frame reg spec _ inst _ st2 k hk3]
      exact hfr2
  · rw [Bool.not_eq_true] at hin
    simp only [hin, Bool.not_false, if_true]

/-- Person 1 whose in-memory foreign key addressId is 10. -/
def ownerRowA : Entity := [("id", .vnum 1), ("addressId", .vnum 10)]

/-- Person 1 whose in-memory foreign key addressId is 20. -/
def ownerRowB : Entity := [("id", .vnum 1), ("addressId", .vnum 20)]

/-- The store after creating person 1 with addressId 10: the relation
bucket keyed by address identifier 10 holds person identifier 1. -/
def stOwnerA : Store := (repoCreate regOwner 9 specOwner ownerRowA []).1

/-- C5 counterexample: after creating person 1 with addressId 10, the
bucket keyed by foreign-key value 10 contains identifier 1.  Deleting
with an in-memory instance whose addressId is 20 succeeds and removes
identifier 1 from the table index, yet the bucket keyed by 10 — a
relation-index bucket the identifier belonged to — still contains it:
delete does not remove the identifier from every relation-index
bucket it belonged to. -/
theorem c5_delete_counterexample :
    getRelationIndexIds stOwnerA "address" "person" "addressId"
      (some (.vnum 10)) = some [.vnum 1] ∧
    (repoDelete regOwner specOwner ownerRowB stOwnerA).2 = .ok () ∧
    jsIncludes (getTableIndexIds
      (repoDelete regOwner specOwner ownerRowB stOwnerA).1 "person")
      (some (.vnum 1)) = false ∧
    getRelationIndexIds (repoDelete regOwner specOwner ownerRowB stOwnerA).1
      "address" "person" "addressId" (some (.vnum 10)) = some [.vnum 1] :=
  ⟨rfl, rfl, rfl, rfl⟩

/-- C5 amended: when the identifier is absent from the table index,
delete returns without touching the store at all.  When it is
present, delete succeeds, removes the identifier from the table
index, empties each singular relation bucket keyed by the foreign-key
value carried on the in-memory instance (not every bucket the
identifier belonged to), deletes each collection bucket keyed by the
identifier, and a subsequent getById on the identifier fails with the
not-found error. -/
theorem c5_delete_semantics (reg : Registry) (spec : ClassSpec) (inst : Entity)
    (st : Store) (idv : Option Value) (qfuel : Nat)
    (hidv : getProp inst spec.identifierProperty = idv)
    (hkeys : ∀ p ∈ spec.nonRelationalProperties,
      getDataKey reg spec.tableName idv p = .ok (dataKeyString spec.tableName idv p))
    (hlook : ∀ q ∈ spec.relationalProperties, ∃ cs,
      getSpecificationFor reg q.className = .ok cs)
    (hnd : (spec.relationalProperties.filterMap
      (deleteRelTouchedKey reg spec inst idv)).Nodup)
    (hrelkeys : ∀ q ∈ spec.relationalProperties, ∀ s,
      deleteRelTouchedKey reg spec inst idv q = some s →
      s ≠ tableIndexKey spec.tableName) :
    (jsIncludes (getTableIndexIds st spec.tableName) idv = false →
      repoDelete reg spec inst st = (st, .ok ())) ∧
    (jsIncludes (getTableIndexIds st spec.tableName) idv = true →
      (repoDelete reg spec inst st).2 = .ok () ∧
      jsIncludes (getTableIndexIds (repoDelete reg spec inst st).1
        spec.tableName) idv = false ∧
      (∀ r ∈ spec.relationalProperties, r.isCollection = false →
        ∀ cs, getSpecificationFor reg r.className = .ok cs →
        jsIncludes ((getRelationIndexIds (repoDelete reg spec inst st).1
          cs.tableName spec.tableName r.correspondingIdentifierProperty
          (getProp inst r.correspondingIdentifierProperty)).getD []) idv = false) ∧
      (∀ r ∈ spec.relationalProperties, r.isCollection = true →
        ∀ cs, getSpecificationFor reg r.className = .ok cs →
        getRelationIndexIds (repoDelete reg spec inst st).1
          spec.tableName cs.tableName r.correspondingIdentifierProperty idv =
          none) ∧
      qGetById reg (qfuel + 1) spec emptyInclude idv false
        (repoDelete reg spec inst st).1 =
        .error ("No data found for id: " ++ jsStr idv ++ ". " ++
          spec.tableName ++ " does not contain row with property " ++
          spec.identifierProperty ++ " having value " ++ jsStr idv)) := by
  subst hidv
  constructor
  · intro habs
    unfold repoDelete
    simp only [habs, Bool.not_false, if_true]
  · intro hin
    unfold repoDelete
    simp only [hin, Bool.not_true, Bool.false_eq_true, if_false]
    rcases hds : deleteScalarKeys reg spec.tableName
        (getProp inst spec.identifierProperty) spec.nonRelationalProperties
        (removeTableIndex st spec.tableName
          (getProp inst spec.identifierProperty)) with ⟨st2, r2⟩
    have hok2 : r2 = .ok () := by
      have h := deleteScalarKeys_ok reg spec.tableName
        (getProp inst spec.identifierProperty) spec.nonRelationalProperties
        (removeTableIndex st spec.tableName
          (getProp inst spec.identifierProperty)) hkeys
      rw [hds] at h
      exact h
    subst hok2
    have hfrA : driverRead (deleteRelLoop reg spec spec.relationalProperties
        inst (getProp inst spec.identifierProperty) st2).1
        (tableIndexKey spec.tableName) =
        driverRead st2 (tableIndexKey spec.tableName) :=
      deleteRelLoop_frame reg spec spec.relationalProperties inst
        (getProp inst spec.identifierProperty) st2 (tableIndexKey spec.tableName)
        (fun q hq s hs => hrelkeys q hq s hs)
    have hfrB : driverRead st2 (tableIndexKey spec.tableName) =
        driverRead (removeTableIndex st spec.tableName
          (getProp inst spec.identifierProperty)) (tableIndexKey spec.tableName) := by
      have h := deleteScalarKeys_frame reg spec.tableName
        (getProp inst spec.identifierProperty) spec.nonRelationalProperties
        (removeTableIndex st spec.tableName
          (getProp inst spec.identifierProperty)) (tableIndexKey spec.tableName)
        (fun p _ => dataKey_ne_tableIndexKey _ _ _ _)
      rw [hds] at h
      exact h
    have hmem : jsIncludes (getTableIndexIds
        (deleteRelLoop reg spec spec.relationalProperties inst
          (getProp inst spec.identifierProperty) st2).1 spec.tableName)
        (getProp inst spec.identifierProperty) = false := by
      rw [getTableIndexIds_congr spec.tableName (hfrA.trans hfrB)]
      exact removeTableIndex_not_mem st spec.tableName
        (getProp inst spec.identifierProperty)
    refine ⟨?_, ?_, ?_, ?_, ?_⟩
    · show (deleteRelLoop reg spec spec.relationalProperties inst
        (getProp inst spec.identifierProperty) st2).2 = .ok ()
      exact deleteRelLoop_ok reg spec spec.relationalProperties inst
        (getProp inst spec.identifierProperty) st2 hlook
    · exact hmem
    · intro r hr hcoll cs hcs
      exact deleteRelLoop_sing_removed reg spec spec.relationalProperties inst
        (getProp inst spec.identifierProperty) st2 hlook hnd r hr hcoll cs hcs
    · intro r hr hcoll cs hcs
      exact deleteRelLoop_coll_removed reg spec spec.relationalProperties inst
        (getProp inst spec.identifierProperty) st2 hlook hnd r hr hcoll cs hcs
    · show qGetById reg (qfuel + 1) spec emptyInclude
        (getProp inst spec.identifierProperty) false
        (deleteRelLoop reg spec spec.relationalProperties inst
          (getProp inst spec.identifierProperty) st2).1 = _
      have hq : queryRun reg (qfuel + 1)
          (.qbyId spec emptyInclude (getProp inst spec.identifierProperty) false)
          (deleteRelLoop reg spec spec.relationalProperties inst
            (getProp inst spec.identifierProperty) st2).1 =
          .error ("No data found for id: " ++
            jsStr (getProp inst spec.identifierProperty) ++ ". " ++
            spec.tableName ++ " does not contain row with property " ++
            spec.identifierProperty ++ " having value " ++
            jsStr (getProp inst spec.identifierProperty)) := by
        rw [queryRun_succ_qbyId]
        simp only [hmem, Bool.not_false, Bool.and_self, if_true]
      unfold qGetById
      rw [hq]

/-- Witness for C5 (amended) at the concrete owner scenario: deleting
person 1 with the same in-memory instance it was created from
succeeds, clears the table index, and empties the bucket keyed by its
own foreign-key value 10. -/
theorem c5_delete_semantics_witness :
    jsIncludes (getTableIndexIds stOwnerA "person") (some (.vnum 1)) = true ∧
    (repoDelete regOwner specOwner ownerRowA stOwnerA).2 = .ok () ∧
    jsIncludes (getTableIndexIds
      (repoDelete regOwner specOwner ownerRowA stOwnerA).1 "person")
      (some (.vnum 1)) = false ∧
    jsIncludes ((getRelationIndexIds
      (repoDelete regOwner specOwner ownerRowA stOwnerA).1
      "address" "person" "addressId" (some (.vnum 10))).getD [])
      (some (.vnum 1)) = false := by
  have h := c5_delete_semantics regOwner specOwner ownerRowA stOwnerA
    (some (.vnum 1)) 3 rfl
    (by intro p hp; fin_cases hp <;> rfl)
    (by intro q hq; fin_cases hq; exact ⟨specAddress, rfl⟩)
    (by
      rw [show specOwner.relationalProperties.filterMap
        (deleteRelTouchedKey regOwner specOwner ownerRowA (some (.vnum 1))) =
        [relationIndexKey "address" "person" "addressId" (some (.vnum 10))]
        from rfl]
      exact List.nodup_singleton _)
    (by
      intro q hq s hs
      fin_cases hq
      rw [show deleteRelTouchedKey regOwner specOwner ownerRowA
        (some (.vnum 1)) ⟨"address", "Address", "addressId", false⟩ =
        some (relationIndexKey "address" "person" "addressId"
          (some (.vnum 10))) from rfl] at hs
      rw [Option.some_inj] at hs
      subst hs
      decide)
  obtain ⟨hok, hidx, hsing, _, _⟩ := h.2 rfl
  exact ⟨rfl, hok, hidx,
    hsing ⟨"address", "Address", "addressId", false⟩ (List.mem_cons_self _ _) rfl
      specAddress rfl⟩

/-- C10: the foreign-key value delete uses for a singular relation is
read only from the in-memory instance passed to delete: the bucket
keyed by any other value — in particular the value persisted in
storage when the instance field differs from it — is left completely
unchanged, while the bucket keyed by the instance value has the
entity identifier removed. -/
theorem c10_delete_uses_instance_fk (reg : Registry) (spec : ClassSpec)
    (inst : Entity) (st : Store) (r : RelProp) (cs : ClassSpec)
    (w : Option Value)
    (hr : r ∈ spec.relationalProperties) (hcoll : r.isCollection = false)
    (hcs : getSpecificationFor reg r.className = .ok cs)
    (hkeys : ∀ p ∈ spec.nonRelationalProperties,
      getDataKey reg spec.tableName (getProp inst spec.identifierProperty) p =
        .ok (dataKeyString spec.tableName
          (getProp inst spec.identifierProperty) p))
    (hlook : ∀ q ∈ spec.relationalProperties, ∃ cs',
      getSpecificationFor reg q.className = .ok cs')
    (hnd : (spec.relationalProperties.filterMap
      (deleteRelTouchedKey reg spec inst
        (getProp inst spec.identifierProperty))).Nodup)
    (hw1 : tableIndexKey spec.tableName ≠
      relationIndexKey cs.tableName spec.tableName
        r.correspondingIdentifierProperty w)
    (hw3 : ∀ q ∈ spec.relationalProperties, ∀ s,
      deleteRelTouchedKey reg spec inst
        (getProp inst spec.identifierProperty) q = some s →
      s ≠ relationIndexKey cs.tableName spec.tableName
        r.correspondingIdentifierProperty w) :
    driverRead (repoDelete reg spec inst st).1
      (relationIndexKey cs.tableName spec.tableName
        r.correspondingIdentifierProperty w) =
      driverRead st (relationIndexKey cs.tableName spec.tableName
        r.correspondingIdentifierProperty w) ∧
    (jsIncludes (getTableIndexIds st spec.tableName)
        (getProp inst spec.identifierProperty) = true →
      jsIncludes ((getRelationIndexIds (repoDelete reg spec inst st).1
        cs.tableName spec.tableName r.correspondingIdentifierProperty
        (getProp inst r.correspondingIdentifierProperty)).getD [])
        (getProp inst spec.identifierProperty) = false) := by
  constructor
  · exact repoDelete_frame reg spec inst st
      (relationIndexKey cs.tableName spec.tableName
        r.correspondingIdentifierProperty w) hw1
      (fun p _ => dataKey_ne_relationIndexKey _ _ _ _ _ _ _) hw3
  · intro hin
    unfold repoDelete
    simp only [hin, Bool.not_true, Bool.false_eq_true, if_false]
    rcases hds : deleteScalarKeys reg spec.tableName
        (getProp inst spec.identifierProperty) spec.nonRelationalProperties
        (removeTableIndex st spec.tableName
          (getProp inst spec.identifierProperty)) with ⟨st2, r2⟩
    have hok2 : r2 = .ok () := by
      have h := deleteScalarKeys_ok reg spec.tableName
        (getProp inst spec.identifierProperty) spec.nonRelationalProperties
        (removeTableIndex st spec.tableName
          (getProp inst spec.identifierProperty)) hkeys
      rw [hds] at h
      exact h
    subst hok2
    exact deleteRelLoop_sing_removed reg spec spec.relationalProperties inst
      (getProp inst spec.identifierProperty) st2 hlook hnd r hr hcoll cs hcs

/-- Witness for C10: person 1 was created with addressId 10, so the
stored foreign-key value is 10; deleting with an in-memory instance
whose addressId is 20 leaves the bucket keyed by 10 untouched and
removes identifier 1 from the bucket keyed by 20. -/
theorem c10_delete_uses_instance_fk_witness :
    driverRead (repoDelete regOwner specOwner ownerRowB stOwnerA).1
      (relationIndexKey "address" "person" "addressId" (some (.vnum 10))) =
      driverRead stOwnerA
        (relationIndexKey "address" "person" "addressId" (some (.vnum 10))) ∧
    jsIncludes ((getRelationIndexIds
      (repoDelete regOwner specOwner ownerRowB stOwnerA).1
      "address" "person" "addressId" (some (.vnum 20))).getD [])
      (some (.vnum 1)) = false := by
  have h := c10_delete_uses_instance_fk regOwner specOwner ownerRowB stOwnerA
    ⟨"address", "Address", "addressId", false⟩ specAddress (some (.vnum 10))
    (List.mem_cons_self _ _) rfl rfl
    (by intro p hp; fin_cases hp <;> rfl)
    (by intro q hq; fin_cases hq; exact ⟨specAddress, rfl⟩)
    (by
      rw [show List.filterMap (deleteRelTouchedKey regOwner specOwner
          ownerRowB (getProp ownerRowB specOwner.identifierProperty))
        specOwner.relationalProperties =
        [relationIndexKey "address" "person" "addressId" (some (.vnum 20))]
        from rfl]
      exact List.nodup_singleton _)
    (by decide)
    (by
      intro q hq s hs
      fin_cases hq
      rw [show deleteRelTouchedKey regOwner specOwner ownerRowB
        (getProp ownerRowB specOwner.identifierProperty)
        ⟨"address", "Address", "addressId", false⟩ =
        some (relationIndexKey "address" "person" "addressId"
          (some (.vnum 20))) from rfl] at hs
      rw [Option.some_inj] at hs
      subst hs
      decide)
  exact ⟨h.1, h.2 rfl⟩

/-! ### Claim C4: identifier uniqueness in the table index -/

/-- SameValueZero equality on the compared values implies equality of
the modelled values (the true cases are exactly the same-constructor
primitive cases). -/
theorem valEqb_eq : ∀ {a b : Value}, valEqb a b = true → a = b := by
  intro a b h
  cases a <;> cases b <;> simp only [valEqb, Bool.false_eq_true] at h
  case vnull.vnull => rfl
  case vbool.vbool => exact congrArg Value.vbool (eq_of_beq h)
  case vnum.vnum => exact congrArg Value.vnum (eq_of_beq h)
  case vstr.vstr => exact congrArg Value.vstr (eq_of_beq h)

/-- The uniqueness invariant of the table identifier indexes: every
index lists any identifier value at most once. -/
def tableIndexAtMostOnce (st : Store) : Prop :=
  ∀ (t : String) (i : Value),
    ((getTableIndexIds st t).countP (fun x => valEqb x i)) ≤ 1

/-- The empty store satisfies the uniqueness invariant. -/
theorem tableIndexAtMostOnce_empty : tableIndexAtMostOnce [] :=
  fun _ _ => Nat.zero_le 1

/-- A write at a key that is no table index key preserves the
uniqueness invariant. -/
theorem tableIndexAtMostOnce_write (st : Store) (k : String) (v : Value)
    (hk : ∀ t, k ≠ tableIndexKey t) (hinv : tableIndexAtMostOnce st) :
    tableIndexAtMostOnce (driverWrite st k v) := by
  intro t i
  unfold getTableIndexIds
  rw [driverRead_write_ne st v (fun he => hk t he.symm)]
  exact hinv t i

/-- Writing a singleton list into a table index cell preserves the
uniqueness invariant. -/
theorem tableIndexAtMostOnce_singleton (st : Store) (tw : String) (v : Value)
    (hinv : tableIndexAtMostOnce st) :
    tableIndexAtMostOnce (driverWrite st (tableIndexKey tw) (.varr [v])) := by
  intro t i
  unfold getTableIndexIds
  by_cases heq : tableIndexKey tw = tableIndexKey t
  · rw [← heq, driverRead_write_self]
    simp only [truthy, if_true]
    exact le_trans (List.countP_le_length _) (by simp)
  · rw [driverRead_write_ne st _ (fun he => heq he.symm)]
    exact hinv t i

/-- addTableIndex with a defined identifier preserves the uniqueness
invariant: the duplicate gate rejects a value already in the index,
so a value is only ever appended to an index not containing it. -/
theorem addTableIndex_inv (st : Store) (tw : String) (v : Value)
    (hinv : tableIndexAtMostOnce st) :
    tableIndexAtMostOnce (addTableIndex st tw (some v)).1 := by
  unfold addTableIndex
  cases hcell : driverRead st (tableIndexKey tw) with
  | varr xs =>
    simp only [hcell]
    by_cases hmem : jsIncludes xs (some v) = true
    · simp only [hmem, if_true]
      exact hinv
    · rw [Bool.not_eq_true] at hmem
      simp only [hmem, Bool.false_eq_true, if_false]
      intro t i
      unfold getTableIndexIds
      by_cases heq : tableIndexKey tw = tableIndexKey t
      · rw [← heq, driverRead_write_self]
        simp only [truthy, if_true, Option.getD_some]
        have hxs : getTableIndexIds st t = xs := by
          unfold getTableIndexIds
          rw [← heq, hcell]
        rw [List.countP_append]
        by_cases hvi : valEqb v i = true
        · obtain rfl : v = i := valEqb_eq hvi
          have hzero : xs.countP (fun x => valEqb x v) = 0 := by
            rw [List.countP_eq_zero]
            intro x hx
            rw [jsIncludes, List.any_eq_false] at hmem
            simpa [valEqbOpt] using hmem x hx
          rw [hzero]
          simpa using le_trans (List.countP_le_length _) (by simp)
        · rw [Bool.not_eq_true] at hvi
          have hone : List.countP (fun x => valEqb x i) [v] = 0 := by
            simp [List.countP_cons, hvi]
          rw [hone, Nat.add_zero]
          rw [← hxs]
          exact hinv t i
      · rw [driverRead_write_ne st _ (fun he => heq he.symm)]
        exact hinv t i
  | vnull =>
    simp only [hcell]
    exact tableIndexAtMostOnce_singleton st tw v hinv
  | vbool b =>
    simp only [hcell]
    by_cases htr : truthy (Value.vbool b) = true
    · simp only [htr, if_true]
      exact hinv
    · rw [Bool.not_eq_true] at htr
      simp only [htr, Bool.false_eq_true, if_false]
      exact tableIndexAtMostOnce_singleton st tw v hinv
  | vnum n =>
    simp only [hcell]
    by_cases htr : truthy (Value.vnum n) = true
    · simp only [htr, if_true]
      exact hinv
    · rw [Bool.not_eq_true] at htr
      simp only [htr, Bool.false_eq_true, if_false]
      exact tableIndexAtMostOnce_singleton st tw v hinv
  | vstr sv =>
    simp only [hcell]
    by_cases htr : truthy (Value.vstr sv) = true
    · simp only [htr, if_true]
      exact hinv
    · rw [Bool.not_eq_true] at htr
      simp only [htr, Bool.false_eq_true, if_false]
      exact tableIndexAtMostOnce_singleton st tw v hinv
  | vobj fs =>
    simp only [hcell]
    exact hinv

/-- removeTableIndex preserves the uniqueness invariant: it only
filters an index list. -/
theorem removeTableIndex_inv (st : Store) (tw : String) (idv : Option Value)
    (hinv : tableIndexAtMostOnce st) :
    tableIndexAtMostOnce (removeTableIndex st tw idv) := by
  unfold removeTableIndex
  cases hcell : driverRead st (tableIndexKey tw) with
  | varr xs =>
    simp only
    intro t i
    unfold getTableIndexIds
    by_cases heq : tableIndexKey tw = tableIndexKey t
    · rw [← heq, driverRead_write_self]
      simp only [truthy, if_true]
      have hxs : getTableIndexIds st t = xs := by
        unfold getTableIndexIds
        rw [← heq, hcell]
      refine le_trans ((List.filter_sublist xs).countP_le _) ?_
      rw [← hxs]
      exact hinv t i
    · rw [driverRead_write_ne st _ (fun he => heq he.symm)]
      exact hinv t i
  | vnull => exact hinv
  | vbool b => exact hinv
  | vnum n => exact hinv
  | vstr sv => exact hinv
  | vobj fs => exact hinv

/-- The scalar write loop preserves the uniqueness invariant: data
keys never collide with table index keys. -/
theorem writeScalars_inv (reg : Registry) (t : String) (idv : Option Value)
    (props : List String) (inst : Entity) (st : Store)
    (hinv : tableIndexAtMostOnce st) :
    tableIndexAtMostOnce (writeScalars reg t idv props inst st).1 := by
  intro t' i
  unfold getTableIndexIds
  rw [writeScalars_frame reg t idv props inst st (tableIndexKey t')
    (fun p _ => dataKey_ne_tableIndexKey _ _ _ _)]
  exact hinv t' i

/-- The scalar removal loop of delete preserves the uniqueness
invariant. -/
theorem deleteScalarKeys_inv (reg : Registry) (t : String) (idv : Option Value)
    (props : List String) (st : Store)
    (hinv : tableIndexAtMostOnce st) :
    tableIndexAtMostOnce (deleteScalarKeys reg t idv props st).1 := by
  intro t' i
  unfold getTableIndexIds
  rw [deleteScalarKeys_frame reg t idv props st (tableIndexKey t')
    (fun p _ => dataKey_ne_tableIndexKey _ _ _ _)]
  exact hinv t' i

/-- The create cascade of a relation-free schema with a defined
identifier preserves the uniqueness invariant at every fuel. -/
theorem repoRun_rcreate_inv (reg : Registry) (fuel : Nat) (spec : ClassSpec)
    (inst : Entity) (st : Store)
    (hscalar : spec.relationalProperties = [])
    (v : Value) (hv : getProp inst spec.identifierProperty = some v)
    (hinv : tableIndexAtMostOnce st) :
    tableIndexAtMostOnce (repoRun reg fuel (.rcreate spec inst) st).1 := by
  match fuel with
  | 0 => exact hinv
  | fuel + 1 =>
    rw [repoRun_succ_rcreate]
    match fuel with
    | 0 =>
      simp only [hscalar]
      exact hinv
    | fuel + 1 =>
      simp only [hscalar, repoRun_succ_rrels_nil]
      rcases hadd : addTableIndex st spec.tableName
          (getProp inst spec.identifierProperty) with ⟨stB, rB⟩
      have hB : tableIndexAtMostOnce stB := by
        have h := addTableIndex_inv st spec.tableName v hinv
        rw [← hv, hadd] at h
        exact h
      cases rB with
      | error e => exact hB
      | ok u =>
        rcases hws : writeScalars reg spec.tableName
            (getProp inst spec.identifierProperty)
            spec.nonRelationalProperties inst stB with ⟨stC, rC⟩
        have hC : tableIndexAtMostOnce stC := by
          have h := writeScalars_inv reg spec.tableName
            (getProp inst spec.identifierProperty)
            spec.nonRelationalProperties inst stB hB
          rw [hws] at h
          exact h
        simp only [hws]
        cases rC with
        | error e => exact hC
        | ok u2 => exact hC

/-- Repository.create of a relation-free schema with a defined
identifier preserves the uniqueness invariant. -/
theorem repoCreate_inv (reg : Registry) (fuel : Nat) (spec : ClassSpec)
    (inst : Entity) (st : Store)
    (hscalar : spec.relationalProperties = [])
    (v : Value) (hv : getProp inst spec.identifierProperty = some v)
    (hinv : tableIndexAtMostOnce st) :
    tableIndexAtMostOnce (repoCreate reg fuel spec inst st).1 := by
  unfold repoCreate
  rcases hrr : repoRun reg fuel (.rcreate spec inst) st with ⟨stA, rA⟩
  have hA : tableIndexAtMostOnce stA := by
    have h := repoRun_rcreate_inv reg fuel spec inst st hscalar v hv hinv
    rw [hrr] at h
    exact h
  cases rA with
  | error e => exact hA
  | ok out =>
    cases out with
    | rdone i2 idv2 => exact hA
    | rlist ms => exact hA

/-- Repository.delete of a relation-free schema preserves the
uniqueness invariant. -/
theorem repoDelete_inv (reg : Registry) (spec : ClassSpec) (inst : Entity)
    (st : Store) (hscalar : spec.relationalProperties = [])
    (hinv : tableIndexAtMostOnce st) :
    tableIndexAtMostOnce (repoDelete reg spec inst st).1 := by
  unfold repoDelete
  by_cases hin : jsIncludes (getTableIndexIds st spec.tableName)
      (getProp inst spec.identifierProperty) = true
  · simp only [hin, Bool.not_true, Bool.false_eq_true, if_false]
    rcases hds : deleteScalarKeys reg spec.tableName
        (getProp inst spec.identifierProperty) spec.nonRelationalProperties
        (removeTableIndex st spec.tableName
          (getProp inst spec.identifierProperty)) with ⟨st2, r2⟩
    have h2 : tableIndexAtMostOnce st2 := by
      have h := deleteScalarKeys_inv reg spec.tableName
        (getProp inst spec.identifierProperty) spec.nonRelationalProperties
        (removeTableIndex st spec.tableName
          (getProp inst spec.identifierProperty))
        (removeTableIndex_inv st spec.tableName
          (getProp inst spec.identifierProperty) hinv)
      rw [hds] at h
      exact h
    cases r2 with
    | error e => exact h2
    | ok u =>
      rw [hscalar]
      exact h2
  · rw [Bool.not_eq_true] at hin
    simp only [hin, Bool.not_false, if_true]
    exact hinv

/-- One repository operation of a create-and-delete sequence. -/
inductive RepoOp where
  | opCreate (spec : ClassSpec) (inst : Entity)
  | opDelete (spec : ClassSpec) (inst : Entity)

/-- Apply one repository operation to the store. -/
def applyOp (reg : Registry) (fuel : Nat) (st : Store) : RepoOp → Store
  | .opCreate spec inst => (repoCreate reg fuel spec inst st).1
  | .opDelete spec inst => (repoDelete reg spec inst st).1

/-- Apply a sequence of repository operations in order. -/
def applyOps (reg : Registry) (fuel : Nat) : List RepoOp → Store → Store
  | [], st => st
  | op :: ops, st => applyOps reg fuel ops (applyOp reg fuel st op)

/-- An operation over a relation-free schema whose create instances
carry a defined identifier value. -/
def opScalarOk : RepoOp → Prop
  | .opCreate spec inst => spec.relationalProperties = [] ∧
      ∃ v, getProp inst spec.identifierProperty = some v
  | .opDelete spec _ => spec.relationalProperties = []

/-- Any sequence of creates and deletes over relation-free schemas
with defined identifiers preserves the uniqueness invariant. -/
theorem applyOps_inv (reg : Registry) (fuel : Nat) :
    ∀ (ops : List RepoOp) (st : Store),
    (∀ op ∈ ops, opScalarOk op) → tableIndexAtMostOnce st →
    tableIndexAtMostOnce (applyOps reg fuel ops st) := by
  intro ops
  induction ops with
  | nil => intro st _ hinv; exact hinv
  | cons op ops ih =>
    intro st hops hinv
    refine ih _ (fun q hq => hops q (by simp [hq])) ?_
    have hop := hops op (by simp)
    cases op with
    | opCreate spec inst =>
      obtain ⟨hscalar, v, hv⟩ := hop
      exact repoCreate_inv reg fuel spec inst st hscalar v hv hinv
    | opDelete spec inst =>
      exact repoDelete_inv reg spec inst st hop hinv

/-- C4: for a relation-free schema with an identifier value that
compares equal to itself, a successful create followed by a second
create with the same identifier fails with the index
constraint-violation error and leaves the store unchanged; and any
sequence of creates and deletes over relation-free schemas with
defined identifiers keeps every table identifier index free of
duplicates: each value occurs in it at most once. -/
theorem c4_identifier_unique (reg : Registry) (spec : ClassSpec)
    (inst inst2 : Entity) (st st' : Store) (res : Entity × Option Value)
    (fuel fuel2 : Nat)
    (hscalar : spec.relationalProperties = [])
    (hrefl : valEqbOpt ((getProp inst spec.identifierProperty).getD .vnull)
      (getProp inst spec.identifierProperty) = true)
    (hid2 : getProp inst2 spec.identifierProperty =
      getProp inst spec.identifierProperty)
    (hcr : repoCreate reg (fuel + 2) spec inst st = (st', .ok res)) :
    repoCreate reg (fuel2 + 2) spec inst2 st' =
      (st', .error ("Index constraint violation: " ++
        jsStr (getProp inst spec.identifierProperty) ++
        " already exists in table " ++ spec.tableName)) ∧
    (∀ (ops : List RepoOp) (st0 : Store) (fuel3 : Nat),
      (∀ op ∈ ops, opScalarOk op) →
      tableIndexAtMostOnce st0 →
      ∀ (t : String) (i : Value),
        ((getTableIndexIds (applyOps reg fuel3 ops st0) t).countP
          (fun x => valEqb x i)) ≤ 1) := by
  constructor
  · unfold repoCreate at hcr
    rcases hrr : repoRun reg (fuel + 2) (.rcreate spec inst) st with ⟨stA, rA⟩
    simp only [hrr] at hcr
    cases rA with
    | error e => exact absurd (congrArg Prod.snd hcr) (by simp)
    | ok out =>
      cases out with
      | rlist ms => exact absurd (congrArg Prod.snd hcr) (by simp)
      | rdone instA idvA =>
        rw [repoRun_succ_rcreate] at hrr
        simp only [hscalar, repoRun_succ_rrels_nil] at hrr
        rcases hadd : addTableIndex st spec.tableName
            (getProp inst spec.identifierProperty) with ⟨stB, rB⟩
        simp only [hadd] at hrr
        cases rB with
        | error e => exact absurd (congrArg Prod.snd hrr) (by simp)
        | ok u =>
          cases u
          rcases hws : writeScalars reg spec.tableName
              (getProp inst spec.identifierProperty)
              spec.nonRelationalProperties inst stB with ⟨stC, rC⟩
          simp only [hws] at hrr
          cases rC with
          | error e => exact absurd (congrArg Prod.snd hrr) (by simp)
          | ok u2 =>
            have h1 : stA = st' := by simpa using congrArg Prod.fst hcr
            have h2 : stC = stA := by simpa using congrArg Prod.fst hrr
            have hfin : st' = stC := (h2.trans h1).symm
            rw [hfin]
            have hmemB : jsIncludes (getTableIndexIds stB spec.tableName)
                (getProp inst spec.identifierProperty) = true :=
              addTableIndex_ok_mem st spec.tableName
                (getProp inst spec.identifierProperty) stB hadd hrefl
            have hfr := writeScalars_frame reg spec.tableName
              (getProp inst spec.identifierProperty)
              spec.nonRelationalProperties inst stB
              (tableIndexKey spec.tableName)
              (fun p _ => dataKey_ne_tableIndexKey _ _ _ _)
            rw [hws] at hfr
            have hfr2 : driverRead stC (tableIndexKey spec.tableName) =
                driverRead stB (tableIndexKey spec.tableName) := hfr
            have hmemC : jsIncludes (getTableIndexIds stC spec.tableName)
                (getProp inst spec.identifierProperty) = true := by
              rw [getTableIndexIds_congr spec.tableName hfr2]
              exact hmemB
            obtain ⟨xs, hcell, hxs⟩ : ∃ xs,
                driverRead stC (tableIndexKey spec.tableName) = .varr xs ∧
                jsIncludes xs (getProp inst spec.identifierProperty) = true := by
              unfold getTableIndexIds at hmemC
              cases hc : driverRead stC (tableIndexKey spec.tableName) with
              | varr ys => exact ⟨ys, rfl, by rw [hc] at hmemC; exact hmemC⟩
              | vnull => rw [hc] at hmemC; exact absurd hmemC (by simp [jsIncludes])
              | vbool b => rw [hc] at hmemC; exact absurd hmemC (by simp [jsIncludes])
              | vnum n => rw [hc] at hmemC; exact absurd hmemC (by simp [jsIncludes])
              | vstr sv => rw [hc] at hmemC; exact absurd hmemC (by simp [jsIncludes])
              | vobj fs => rw [hc] at hmemC; exact absurd hmemC (by simp [jsIncludes])
            have haddE : addTableIndex stC spec.tableName
                (getProp inst spec.identifierProperty) =
                (stC, .error ("Index constraint violation: " ++
                  jsStr (getProp inst spec.identifierProperty) ++
                  " already exists in table " ++ spec.tableName)) := by
              unfold addTableIndex
              simp only [hcell, hxs, if_true]
            unfold repoCreate
            rw [repoRun_succ_rcreate]
            simp only [hscalar, repoRun_succ_rrels_nil, hid2, haddE]
  · intro ops st0 fuel3 hops hinv0 t i
    exact applyOps_inv reg fuel3 ops st0 hops hinv0 t i

/-- Witness for C4 at the two-row person table: creating person 1
again after a successful create fails with the constraint-violation
error, and a create-create-delete sequence from the empty store
leaves every table index duplicate-free. -/
theorem c4_identifier_unique_witness :
    repoCreate regScalar 9 specPersonScalar personRow1
      (repoCreate regScalar 9 specPersonScalar personRow1 []).1 =
      ((repoCreate regScalar 9 specPersonScalar personRow1 []).1,
        .error ("Index constraint violation: " ++
          jsStr (getProp personRow1 specPersonScalar.identifierProperty) ++
          " already exists in table " ++ specPersonScalar.tableName)) ∧
    ∀ (t : String) (i : Value),
      ((getTableIndexIds (applyOps regScalar 9
        [.opCreate specPersonScalar personRow1,
         .opCreate specPersonScalar personRow2,
         .opDelete specPersonScalar personRow1] []) t).countP
        (fun x => valEqb x i)) ≤ 1 := by
  have h := c4_identifier_unique regScalar specPersonScalar personRow1
    personRow1 [] (repoCreate regScalar 9 specPersonScalar personRow1 []).1
    (personRow1, some (.vnum 1)) 7 7 rfl rfl rfl rfl
  refine ⟨h.1, fun t i => h.2
    [.opCreate specPersonScalar personRow1,
     .opCreate specPersonScalar personRow2,
     .opDelete specPersonScalar personRow1] [] 9 ?_
    tableIndexAtMostOnce_empty t i⟩
  intro op hop
  fin_cases hop
  · exact ⟨rfl, .vnum 1, rfl⟩
  · exact ⟨rfl, .vnum 2, rfl⟩
  · exact rfl

/-! ### Claim C8: guarded relation access on fetched entities -/

/-- Writing through the Shadow proxy removes the guard: a read of the
just-written name succeeds with the written value. -/
theorem shadowGet_shadowSet_self (fields : List (String × SVal))
    (guarded : List String) (k : String) (v : SVal) :
    shadowGet (shadowSet (.sobj fields guarded) k v) k = .ok (some v) := by
  have hg : k ∉ guarded.filter (fun g => !(g == k)) := by
    intro hmem
    have h2 := (List.mem_filter.mp hmem).2
    simp at h2
  simp only [shadowSet, shadowGet]
  rw [if_neg hg, List.find?_cons_of_pos _ (by simp)]
  rfl

/-- Writing through the Shadow proxy leaves every other name's read
unchanged. -/
theorem shadowGet_shadowSet_ne (fields : List (String × SVal))
    (guarded : List String) (k k' : String) (v : SVal) (hne : k' ≠ k) :
    shadowGet (shadowSet (.sobj fields guarded) k v) k' =
      shadowGet (.sobj fields guarded) k' := by
  simp only [shadowSet, shadowGet]
  have hg : (k' ∈ guarded.filter (fun g => !(g == k))) ↔ k' ∈ guarded := by
    constructor
    · exact fun h => (List.mem_filter.mp h).1
    · intro h
      exact List.mem_filter.mpr ⟨h, by simp [hne]⟩
  by_cases hmem : k' ∈ guarded
  · rw [if_pos (hg.mpr hmem), if_pos hmem]
  · rw [if_neg (fun h => hmem (hg.mp h)), if_neg hmem,
      List.find?_cons_of_neg _ (by simp [Ne.symm hne]),
      find?_filter_ne fields hne]

/-- The include-resolution loop of attachIncludesAndGet: on success
the result is a guarded view whose non-included fields read exactly
as on the incoming view, and each included key resolves to its
relation descriptor; a collection include holds an array, and a
singular include is left untouched when the record lacks the
foreign-key field, holds null when the foreign-key value is falsy,
and holds the fetched child when it is truthy. -/
theorem attachLoop_spec (reg : Registry) (spec : ClassSpec) :
    ∀ (children : List (String × IncludeNode)) (fuel : Nat) (data : Entity)
      (fields : List (String × SVal)) (guarded : List String)
      (out : QueryOut) (st : Store),
    (children.map Prod.fst).Nodup →
    queryRun reg fuel (.qloop spec children data (.sobj fields guarded)) st =
      .ok out →
    ∃ fields2 guarded2, out = .qone (.sobj fields2 guarded2) ∧
    (∀ k, k ∉ children.map Prod.fst →
      shadowGet (.sobj fields2 guarded2) k =
        shadowGet (.sobj fields guarded) k) ∧
    (∀ k sub, (k, sub) ∈ children →
      ∃ r, spec.relationalProperties.find? (fun q => q.name == k) = some r ∧
      (r.isCollection = true →
        ∃ arr, shadowGet (.sobj fields2 guarded2) k = .ok (some (.sarr arr))) ∧
      (r.isCollection = false →
        ((data.find? (fun f =>
            f.1 == r.correspondingIdentifierProperty)).isNone = true →
          shadowGet (.sobj fields2 guarded2) k =
            shadowGet (.sobj fields guarded) k) ∧
        ((data.find? (fun f =>
            f.1 == r.correspondingIdentifierProperty)).isNone = false →
          truthyOpt (getProp data r.correspondingIdentifierProperty) = false →
          shadowGet (.sobj fields2 guarded2) k = .ok (some (.prim .vnull))) ∧
        (truthyOpt (getProp data r.correspondingIdentifierProperty) = true →
          ∃ child, shadowGet (.sobj fields2 guarded2) k = .ok (some child)))) := by
  intro children
  induction children with
  | nil =>
    intro fuel data fields guarded out st hnd h
    match fuel with
    | 0 => exact absurd h (by simp [queryRun])
    | fuel + 1 =>
      rw [queryRun_succ_qloop_nil] at h
      have hout : out = .qone (.sobj fields guarded) := (Except.ok.inj h).symm
      exact ⟨fields, guarded, hout, fun k _ => rfl,
        fun k sub hmem => absurd hmem (by simp)⟩
  | cons c rest ih =>
    rcases c with ⟨k0, sub0⟩
    intro fuel data fields guarded out st hnd h
    match fuel with
    | 0 => exact absurd h (by simp [queryRun])
    | fuel + 1 =>
      rw [queryRun_succ_qloop_cons] at h
      simp only [List.map_cons] at hnd
      have hnd0 : k0 ∉ rest.map Prod.fst := (List.nodup_cons.mp hnd).1
      have hndr : (rest.map Prod.fst).Nodup := (List.nodup_cons.mp hnd).2
      cases hfind : spec.relationalProperties.find? (fun q => q.name == k0) with
      | none =>
        simp only [hfind] at h
        exact absurd h (by simp)
      | some r =>
        simp only [hfind] at h
        cases hcs : getSpecificationFor reg r.className with
        | error e =>
          simp only [hcs] at h
          exact absurd h (by simp)
        | ok childSpec =>
          simp only [hcs] at h
          by_cases hcoll : r.isCollection = true
          · simp only [hcoll, if_true] at h
            cases hfetch : queryRun reg fuel (.qbyIds childSpec sub0
                ((getRelationIndexIds st spec.tableName childSpec.tableName
                  r.correspondingIdentifierProperty
                  (getProp data spec.identifierProperty)).getD [])) st with
            | error e =>
              simp only [hfetch] at h
              exact absurd h (by simp)
            | ok qres =>
              simp only [hfetch] at h
              cases qres with
              | qone v => exact absurd h (by simp)
              | qmany fetched =>
                simp only [shadowSet] at h
                obtain ⟨f2, g2, hout, hunch, hmem⟩ :=
                  ih fuel data _ _ out st hndr h
                refine ⟨f2, g2, hout, ?_, ?_⟩
                · intro k hk
                  simp only [List.map_cons, List.mem_cons, not_or] at hk
                  exact (hunch k hk.2).trans
                    (shadowGet_shadowSet_ne fields guarded k0 k
                      (.sarr fetched) hk.1)
                · intro k sub hmem2
                  rcases List.mem_cons.mp hmem2 with heq | hrest
                  · injection heq with hk hs
                    subst hk
                    refine ⟨r, hfind, ?_, ?_⟩
                    · intro _
                      exact ⟨fetched, (hunch k hnd0).trans
                        (shadowGet_shadowSet_self fields guarded k _)⟩
                    · intro hcf
                      exact absurd hcoll (by simp [hcf])
                  · obtain ⟨r2, hfind2, hc2, hs2⟩ := hmem k sub hrest
                    have hkk0 : k ≠ k0 := fun he =>
                      hnd0 (he ▸ List.mem_map.mpr ⟨(k, sub), hrest, rfl⟩)
                    refine ⟨r2, hfind2, hc2, fun hcf =>
                      ⟨?_, (hs2 hcf).2.1, (hs2 hcf).2.2⟩⟩
                    intro habs
                    exact ((hs2 hcf).1 habs).trans
                      (shadowGet_shadowSet_ne fields guarded k0 k
                        (.sarr fetched) hkk0)
          · rw [Bool.not_eq_true] at hcoll
            simp only [hcoll, Bool.false_eq_true, if_false] at h
            by_cases hnone : (data.find? (fun f =>
                f.1 == r.correspondingIdentifierProperty)).isNone = true
            · simp only [hnone, if_true] at h
              obtain ⟨f2, g2, hout, hunch, hmem⟩ :=
                ih fuel data fields guarded out st hndr h
              refine ⟨f2, g2, hout, ?_, ?_⟩
              · intro k hk
                simp only [List.map_cons, List.mem_cons, not_or] at hk
                exact hunch k hk.2
              · intro k sub hmem2
                rcases List.mem_cons.mp hmem2 with heq | hrest
                · injection heq with hk hs
                  subst hk
                  refine ⟨r, hfind, ?_, ?_⟩
                  · intro hct
                    exact absurd hct (by simp [hcoll])
                  · intro _
                    refine ⟨?_, ?_, ?_⟩
                    · intro _
                      exact hunch k hnd0
                    · intro hfq _
                      exact absurd hnone (by simp [hfq])
                    · intro htr
                      exfalso
                      have hn : data.find? (fun f =>
                          f.1 == r.correspondingIdentifierProperty) = none :=
                        Option.isNone_iff_eq_none.mp hnone
                      unfold getProp at htr
                      rw [hn] at htr
                      simp [truthyOpt] at htr
                · exact hmem k sub hrest
            · rw [Bool.not_eq_true] at hnone
              simp only [hnone, Bool.false_eq_true, if_false] at h
              by_cases htr : truthyOpt (getProp data
                  r.correspondingIdentifierProperty) = true
              · simp only [htr, Bool.not_true, Bool.false_eq_true, if_false] at h
                cases hQ : queryRun reg fuel (.qbyId childSpec sub0
                    (getProp data r.correspondingIdentifierProperty) true) st with
                | error e =>
                  simp only [hQ] at h
                  exact absurd h (by simp)
                | ok qres =>
                  simp only [hQ] at h
                  cases qres with
                  | qmany vs => exact absurd h (by simp)
                  | qone child =>
                    simp only [shadowSet] at h
                    obtain ⟨f2, g2, hout, hunch, hmem⟩ :=
                      ih fuel data _ _ out st hndr h
                    refine ⟨f2, g2, hout, ?_, ?_⟩
                    · intro k hk
                      simp only [List.map_cons, List.mem_cons, not_or] at hk
                      exact (hunch k hk.2).trans
                        (shadowGet_shadowSet_ne fields guarded k0 k child hk.1)
                    · intro k sub hmem2
                      rcases List.mem_cons.mp hmem2 with heq | hrest
                      · injection heq with hk hs
                        subst hk
                        refine ⟨r, hfind, ?_, ?_⟩
                        · intro hct
                          exact absurd hct (by simp [hcoll])
                        · intro _
                          refine ⟨?_, ?_, ?_⟩
                          · intro hq
                            exact absurd hq (by simp [hnone])
                          · intro _ hfq
                            exact absurd htr (by simp [hfq])
                          · intro _
                            exact ⟨child, (hunch k hnd0).trans
                              (shadowGet_shadowSet_self fields guarded k child)⟩
                      · obtain ⟨r2, hfind2, hc2, hs2⟩ := hmem k sub hrest
                        have hkk0 : k ≠ k0 := fun he =>
                          hnd0 (he ▸ List.mem_map.mpr ⟨(k, sub), hrest, rfl⟩)
                        refine ⟨r2, hfind2, hc2, fun hcf =>
                          ⟨?_, (hs2 hcf).2.1, (hs2 hcf).2.2⟩⟩
                        intro habs
                        exact ((hs2 hcf).1 habs).trans
                          (shadowGet_shadowSet_ne fields guarded k0 k
                            child hkk0)
              · rw [Bool.not_eq_true] at htr
                simp only [htr, Bool.not_false, if_true] at h
                simp only [shadowSet] at h
                obtain ⟨f2, g2, hout, hunch, hmem⟩ :=
                  ih fuel data _ _ out st hndr h
                refine ⟨f2, g2, hout, ?_, ?_⟩
                · intro k hk
                  simp only [List.map_cons, List.mem_cons, not_or] at hk
                  exact (hunch k hk.2).trans
                    (shadowGet_shadowSet_ne fields guarded k0 k
                      (.prim .vnull) hk.1)
                · intro k sub hmem2
                  rcases List.mem_cons.mp hmem2 with heq | hrest
                  · injection heq with hk hs
                    subst hk
                    refine ⟨r, hfind, ?_, ?_⟩
                    · intro hct
                      exact absurd hct (by simp [hcoll])
                    · intro _
                      refine ⟨?_, ?_, ?_⟩
                      · intro hq
                        exact absurd hq (by simp [hnone])
                      · intro _ _
                        exact (hunch k hnd0).trans
                          (shadowGet_shadowSet_self fields guarded k _)
                      · intro hq
                        exact absurd hq (by simp [htr])
                  · obtain ⟨r2, hfind2, hc2, hs2⟩ := hmem k sub hrest
                    have hkk0 : k ≠ k0 := fun he =>
                      hnd0 (he ▸ List.mem_map.mpr ⟨(k, sub), hrest, rfl⟩)
                    refine ⟨r2, hfind2, hc2, fun hcf =>
                      ⟨?_, (hs2 hcf).2.1, (hs2 hcf).2.2⟩⟩
                    intro habs
                    exact ((hs2 hcf).1 habs).trans
                      (shadowGet_shadowSet_ne fields guarded k0 k
                        (.prim .vnull) hkk0)

/-- C8 counterexample setup: person 1 created without an address. -/
def stP8 : Store := (repoCreate regOwner 9 specOwner ownerRow []).1

/-- An include map requesting the singular address relation. -/
def incAddress : IncludeNode := .mk [("address", emptyInclude)]

/-- C8 counterexample: person 1 was created with no addressId, so the
stored foreign-key cell is falsy and the loaded record lacks the
field entirely; getById with the address relation included succeeds,
but the include is skipped and the address field stays guarded, so
reading the included relation throws instead of yielding the related
object or null. -/
theorem c8_include_counterexample :
    qGetById regOwner 9 specOwner incAddress (some (.vnum 1)) false stP8 =
      .ok (.sobj [("id", .prim (.vnum 1))] ["address"]) ∧
    shadowGet (.sobj [("id", .prim (.vnum 1))] ["address"]) "address" =
      .error ("The property address is not loaded yet. " ++
        "Lazy loading is not supported.") :=
  ⟨rfl, rfl⟩

/-- C8 amended: on a fetched entity, reading a relation name not in
the include map throws the lazy-loading error; reading a scalar field
succeeds with the loaded value; an included singular relation reads
back as the fetched child when the record's foreign-key value is
truthy and as null when the field is present but falsy, yet it stays
guarded — reads throw — when the record lacks the foreign-key field;
and writing any value to a field removes its guard, so a subsequent
read succeeds with the written value. -/
theorem c8_fetched_relation_access (reg : Registry) (spec : ClassSpec)
    (inc : IncludeNode) (data : Entity) (st : Store) (fuel : Nat) (res : SVal)
    (hnd : (inc.children.map Prod.fst).Nodup)
    (hq : queryRun reg (fuel + 1) (.qattach spec inc data) st = .ok (.qone res)) :
    (∀ r ∈ spec.relationalProperties, r.name ∉ inc.children.map Prod.fst →
      shadowGet res r.name = .error ("The property " ++ r.name ++
        " is not loaded yet. Lazy loading is not supported.")) ∧
    (∀ p, p ∉ spec.relationalProperties.map (fun q => q.name) →
      p ∉ inc.children.map Prod.fst →
      shadowGet res p = .ok ((getProp data p).map SVal.prim)) ∧
    (∀ k sub, (k, sub) ∈ inc.children →
      ∀ r, spec.relationalProperties.find? (fun q => q.name == k) = some r →
      r.isCollection = false →
      ((data.find? (fun f =>
          f.1 == r.correspondingIdentifierProperty)).isNone = true →
        shadowGet res k = .error ("The property " ++ k ++
          " is not loaded yet. Lazy loading is not supported.")) ∧
      ((data.find? (fun f =>
          f.1 == r.correspondingIdentifierProperty)).isNone = false →
        truthyOpt (getProp data r.correspondingIdentifierProperty) = false →
        shadowGet res k = .ok (some (.prim .vnull))) ∧
      (truthyOpt (getProp data r.correspondingIdentifierProperty) = true →
        ∃ child, shadowGet res k = .ok (some child))) ∧
    (∀ (fields : List (String × SVal)) (guarded : List String) (k : String)
        (v : SVal),
      shadowGet (shadowSet (.sobj fields guarded) k v) k = .ok (some v)) := by
  rw [queryRun_succ_qattach] at hq
  simp only [baseShadow] at hq
  obtain ⟨f2, g2, hout, hunch, hmem⟩ := attachLoop_spec reg spec inc.children
    fuel data _ _ (.qone res) st hnd hq
  have hres : res = .sobj f2 g2 := by injection hout
  subst hres
  refine ⟨?_, ?_, ?_, shadowGet_shadowSet_self⟩
  · intro r hr hk
    rw [hunch r.name hk]
    have hg : r.name ∈ spec.relationalProperties.map (fun q => q.name) :=
      List.mem_map.mpr ⟨r, hr, rfl⟩
    simp only [shadowGet]
    rw [if_pos hg]
  · intro p hpg hpk
    rw [hunch p hpk]
    exact shadowGet_baseShadow data
      (spec.relationalProperties.map (fun q => q.name)) p hpg
  · intro k sub hks r hfindH hcoll
    obtain ⟨r2, hfind2, hc2, hs2⟩ := hmem k sub hks
    have hrr : r2 = r := Option.some.inj (hfind2.symm.trans hfindH)
    subst hrr
    refine ⟨?_, (hs2 hcoll).2.1, (hs2 hcoll).2.2⟩
    intro habs
    rw [(hs2 hcoll).1 habs]
    have hpred := List.find?_some hfind2
    have hrk : r2.name = k := eq_of_beq (by simpa using hpred)
    have hg : k ∈ spec.relationalProperties.map (fun q => q.name) :=
      List.mem_map.mpr ⟨r2, List.mem_of_find?_eq_some hfind2, hrk⟩
    simp only [shadowGet]
    rw [if_pos hg]

/-- Witness for C8 (amended) on the fetched person-1 view: the scalar
id reads back, the skipped address include still throws, and writing
through the proxy removes the guard. -/
theorem c8_fetched_relation_access_witness :
    shadowGet (SVal.sobj [("id", SVal.prim (.vnum 1))] ["address"]) "id" =
      .ok (some (.prim (.vnum 1))) ∧
    shadowGet (SVal.sobj [("id", SVal.prim (.vnum 1))] ["address"]) "address" =
      .error ("The property address is not loaded yet. " ++
        "Lazy loading is not supported.") ∧
    shadowGet (shadowSet (.sobj [("id", SVal.prim (.vnum 1))] ["address"])
      "address" (.prim .vnull)) "address" = .ok (some (.prim .vnull)) := by
  have h := c8_fetched_relation_access regOwner specOwner incAddress
    [("id", Value.vnum 1)] stP8 8
    (.sobj [("id", SVal.prim (.vnum 1))] ["address"])
    (by decide) rfl
  refine ⟨?_, ?_, ?_⟩
  · exact h.2.1 "id" (by decide) (by decide)
  · exact (h.2.2.1 "address" emptyInclude (List.mem_cons_self _ _)
      ⟨"address", "Address", "addressId", false⟩ rfl rfl).1 rfl
  · exact h.2.2.2 [("id", SVal.prim (.vnum 1))] ["address"] "address"
      (.prim .vnull)

end IndexOrm
